import Mathlib

/-!
# kctl: argument rewriting and resource resolution

A shallow embedding of `main.go` (package `main` of aarondl/kctl) and the
properties proved about it.

Conventions of the embedding.

* Go strings are Lean `String`s; a `[]string` or `[]Resource` is a `List`,
  the nil slice being `[]`.
* A Go `error` value is its message (a `String`).  A call that can return an
  error or stop the program with a runtime panic returns an `Outcome`.
* The Go `regexp` package is not part of the program.  It enters as the
  parameter `rx : Regexp`: `rx pat = none` when `regexp.Compile(pat)` fails
  and `rx pat = some m` when it succeeds, `m s` being `MatchString(s)` of the
  compiled expression.  The one expression fixed in the source, `rgxKindCmd`,
  is modelled directly.
* What a run reads from outside (the fetch callback handed to `buildArgs`,
  the value of `TERM`, what the `stty size` probe `getTermCaps` returned) is
  the record `Env`.
* `buildCache` receives what `cmd.Output()` returned for the `kubectl get`
  command it runs: the text printed, or the error.
* `buildArgs` also records, in order, every invocation of the fetch callback
  and of `search` (`Run.trace`), so that statements about how often and with
  what arguments they are invoked can be made.
-/

set_option autoImplicit false

namespace Kctl

/-! ## Data model -/

/-- The struct `Resource` of `main.go`. -/
structure Resource where
  ns : String
  name : String
  deriving DecidableEq

/-- The method `func (r Resource) String() string`, `fmt.Sprintf("%s:%s", r.ns, r.name)`. -/
def Resource.String (r : Resource) : String :=
  r.ns ++ ":" ++ r.name

/-- The ways in which the program can stop with a runtime panic. -/
inductive Crash where
  /-- `regexp.MustCompile` was handed an expression that does not compile. -/
  | mustCompile (pattern : String)
  /-- An index expression `xs[i]` with `i` out of range. -/
  | indexOutOfRange
  /-- The slice expression `osArgs[1:]` on an empty slice. -/
  | sliceBounds
  deriving DecidableEq

/-- The result of a Go call of type `(α, error)` that may also stop with a runtime panic. -/
inductive Outcome (α : Type) where
  | ok (val : α)
  | error (msg : String)
  | crash (c : Crash)
  deriving DecidableEq

/-- The `regexp` package as seen by the program: `Compile` followed by `MatchString`. -/
abbrev Regexp := String → Option (String → Bool)

/-! ## The fixed expression `rgxKindCmd` -/

/-- One pattern letter of a `(?i)` expression against one character of the
text: the character is the letter, its upper-case form, or another member of
the letter's simple case-folding orbit (U+017F for `s`, U+212A for `k`). -/
def foldMatch (p c : Char) : Bool :=
  c = p || c = p.toUpper || (p = 's' && c = Char.ofNat 0x17F) || (p = 'k' && c = Char.ofNat 0x212A)

/-- The text starts with the (lower-case) word, letters compared by `foldMatch`. -/
def foldStarts : List Char → List Char → Bool
  | [], _ => true
  | _ :: _, [] => false
  | p :: ps, c :: cs => foldMatch p c && foldStarts ps cs

/-- The word occurs somewhere in the text, letters compared by `foldMatch`. -/
def foldOccurs (w : List Char) : List Char → Bool
  | [] => foldStarts w []
  | c :: cs => foldStarts w (c :: cs) || foldOccurs w cs

/-- The alternatives of `rgxKindCmd`. -/
def kindCmds : List String := ["get", "describe", "delete", "edit"]

/-- The call `rgxKindCmd.MatchString(a)` for
`regexp.MustCompile("(?i)(?:get|describe|delete|edit)")`: an unanchored,
case-insensitive search for one of the four words. -/
def rgxKindCmd (a : String) : Bool :=
  kindCmds.any (fun w => foldOccurs w.data a.data)

/-! ## String helpers of the standard library -/

/-- The pieces of a text between its colons. -/
def splitColon : List Char → List (List Char)
  | [] => [[]]
  | c :: cs =>
    if c = ':' then [] :: splitColon cs
    else
      match splitColon cs with
      | [] => [[c]]
      | h :: t => (c :: h) :: t

/-- The call `strings.Split(a, ":")`. -/
def stringsSplit (a : String) : List String :=
  (splitColon a.data).map String.mk

/-- The formatting of a `[]Resource` by the verb `%v`: the elements, each
through its `String` method, separated by one blank, in square brackets. -/
def fmtResources (rs : List Resource) : String :=
  "[" ++ " ".intercalate (rs.map Resource.String) ++ "]"

/-! ## `keepIf` and `search` -/

/-- The function `keepIf` of `main.go`: the loop appends to `keep` each element passing `filter`. -/
def keepIf (rs : List Resource) (filter : Resource → Bool) : List Resource :=
  rs.foldl (fun keep r => if filter r then keep ++ [r] else keep) []

/-- The expression `rs[0]`. -/
def index0 (rs : List Resource) : Outcome Resource :=
  match rs with
  | [] => .crash .indexOutOfRange
  | r :: _ => .ok r

/-- The second half of `search` (lines 185-199): the name stage and the final `return rs[0], nil`. -/
def searchName (rx : Regexp) (rs : List Resource) (kind rsPattern : String) : Outcome Resource :=
  if rsPattern.length ≠ 0 then
    match rx rsPattern with
    | none => .crash (.mustCompile rsPattern)
    | some rgxName =>
      let rs := keepIf rs (fun r => rgxName r.name)
      match rs.length with
      | 0 => .error ("failed to find " ++ kind ++ " matching " ++ rsPattern)
      | 1 => index0 rs
      | _ => .error ("ambiguous query for " ++ kind ++ " matches: " ++ fmtResources rs)
  else index0 rs

/-- The function `search` of `main.go`: the namespace stage (lines 177-183), then `searchName`. -/
def search (rx : Regexp) (rs : List Resource) (kind nsPattern rsPattern : String) :
    Outcome Resource :=
  if nsPattern.length ≠ 0 then
    match rx nsPattern with
    | none => .crash (.mustCompile nsPattern)
    | some rgxSpace =>
      let rs := keepIf rs (fun r => rgxSpace r.ns)
      if rs.length = 0 then
        .error ("no resources found in namespaces matching " ++ nsPattern)
      else searchName rx rs kind rsPattern
  else searchName rx rs kind rsPattern

/-! ## `getSSHArgs` -/

/-- The function `getSSHArgs` of `main.go`. `term` is `os.Getenv("TERM")` and
`caps` what `getTermCaps()` returned: `(lines, columns)` or an error. -/
def getSSHArgs (term : String) (caps : Except String (Int × Int)) : List String :=
  let sshArgs := ["--", "env"]
  let term := if term.length = 0 then "xterm" else term
  let sshArgs := sshArgs ++ ["TERM=" ++ term]
  match caps with
  | .ok (lines, cols) => sshArgs ++ ["COLUMNS=" ++ toString cols, "LINES=" ++ toString lines]
  | .error _ => sshArgs

/-! ## `buildArgs` -/

/-- What one run of `buildArgs` reads from outside. -/
structure Env where
  /-- The callback `buildCacheFn`. -/
  fetch : String → Except String (List Resource)
  /-- The `regexp` package. -/
  rx : Regexp
  /-- The value of `os.Getenv("TERM")`. -/
  term : String
  /-- The result of `getTermCaps()`. -/
  termCaps : Except String (Int × Int)

/-- An observable call made during a run of `buildArgs`. -/
inductive Event where
  /-- The call `buildCacheFn(kind)`. -/
  | fetch (kind : String)
  /-- The call `search(cache, kind, nsPattern, rsPattern)`. -/
  | search (kind nsPattern rsPattern : String)
  deriving DecidableEq

/-- The local variables of `buildArgs`, and the calls made so far. -/
structure St where
  args : List String
  tailArgs : List String
  cache : List Resource
  colonFound : Bool
  getKind : String
  trace : List Event
  deriving DecidableEq

/-- The result of a run of `buildArgs`: what it returned, and the calls it made. -/
structure Run where
  result : Outcome (List String)
  trace : List Event
  deriving DecidableEq

/-- The state on entry to the loop of `buildArgs`. -/
def St.init : St :=
  { args := [], tailArgs := [], cache := [], colonFound := false, getKind := "pods", trace := [] }

/-- The body of the case `!colonFound && strings.IndexByte(a, ':') >= 0`
(lines 127-146): `.error run` when the body returns from `buildArgs`,
`.ok st` when it falls out of the `switch` with the variables `st`. -/
def resolve (env : Env) (st : St) (a : String) : Except Run St :=
  let st := { st with colonFound := true }
  let filled : Except Run St :=
    if st.cache = [] then
      match env.fetch st.getKind with
      | .error err => .error ⟨.error err, st.trace ++ [.fetch st.getKind]⟩
      | .ok cache => .ok { st with cache := cache, trace := st.trace ++ [.fetch st.getKind] }
    else .ok st
  match filled with
  | .error run => .error run
  | .ok st =>
    match stringsSplit a with
    | nsPattern :: rsPattern :: _ =>
      let st := { st with trace := st.trace ++ [.search st.getKind nsPattern rsPattern] }
      match search env.rx st.cache st.getKind nsPattern rsPattern with
      | .error err => .error ⟨.error err, st.trace⟩
      | .crash c => .error ⟨.crash c, st.trace⟩
      | .ok found =>
        let st := if rsPattern.length ≠ 0 then { st with args := st.args ++ [found.name] } else st
        let st :=
          if nsPattern.length ≠ 0 ∨ rsPattern.length ≠ 0 then
            { st with args := st.args ++ ["--namespace", found.ns] }
          else st
        .ok st
    | _ => .error ⟨.crash .indexOutOfRange, st.trace⟩

/-- The loop `for i, a := range osArgs` of `buildArgs` followed by its final
`return`; the second argument is `osArgs[i:]`, so that `osArgs[i+1]` exists
exactly when the rest after `a` is not empty, and is its head. -/
def loop (env : Env) : St → List String → Run
  | st, [] => ⟨.ok (st.args ++ st.tailArgs), st.trace⟩
  | st, a :: rest =>
    if a = "ssh" then
      loop env { st with
        args := st.args ++ ["exec", "-it"],
        tailArgs := getSSHArgs env.term env.termCaps ++ ["/bin/bash"] } rest
    else if a = ":" then
      loop env { st with args := st.args ++ ["--all-namespaces"] } rest
    else if rgxKindCmd a then
      match rest.head? with
      | some next => loop env { st with args := st.args ++ [a], getKind := next } rest
      | none => loop env st rest
    else if st.colonFound = false ∧ ':' ∈ a.data then
      match resolve env st a with
      | .error run => run
      | .ok st => loop env st rest
    else
      loop env { st with args := st.args ++ [a] } rest

/-- The function `buildArgs` of `main.go`; `osArgs` is the whole of `os.Args`, program name first. -/
def buildArgs (env : Env) (osArgs : List String) : Run :=
  match osArgs with
  | [] => ⟨.crash .sliceBounds, []⟩
  | _ :: osArgs => loop env St.init osArgs

/-! ## `buildCache` -/

/-- The call `bytes.Split(b, []byte{sep})` for a one-byte separator: the pieces between the separators. -/
def bytesSplit (sep : Char) : List Char → List (List Char)
  | [] => [[]]
  | c :: cs =>
    if c = sep then [] :: bytesSplit sep cs
    else
      match bytesSplit sep cs with
      | [] => [[c]]
      | h :: t => (c :: h) :: t

/-- The predicate `unicode.IsSpace`. -/
def isSpace (c : Char) : Bool :=
  c = '\t' || c = '\n' || c = Char.ofNat 0x0B || c = Char.ofNat 0x0C || c = '\r' || c = ' ' ||
  c = Char.ofNat 0x85 || c = Char.ofNat 0xA0 || c = Char.ofNat 0x1680 ||
  (decide (0x2000 ≤ c.toNat) && decide (c.toNat ≤ 0x200A)) ||
  c = Char.ofNat 0x2028 || c = Char.ofNat 0x2029 || c = Char.ofNat 0x202F ||
  c = Char.ofNat 0x205F || c = Char.ofNat 0x3000

/-- The scan of `bytes.Fields`: `cur` is the field being read, last character first. -/
def fieldsGo (cur : List Char) : List Char → List (List Char)
  | [] => if cur = [] then [] else [cur.reverse]
  | c :: cs =>
    if isSpace c then
      if cur = [] then fieldsGo [] cs else cur.reverse :: fieldsGo [] cs
    else fieldsGo (c :: cur) cs

/-- The call `bytes.Fields(l)`: the maximal runs of characters that are not white space. -/
def bytesFields (l : List Char) : List (List Char) :=
  fieldsGo [] l

/-- The loop `for _, l := range lines` of `buildCache`, `rs` being the resources appended so far. -/
def buildCacheLines : List (List Char) → List Resource → Outcome (List Resource)
  | [], rs => .ok rs
  | l :: lines, rs =>
    if l.length = 0 then buildCacheLines lines rs
    else
      match bytesFields l with
      | f0 :: f1 :: _ => buildCacheLines lines (rs ++ [⟨String.mk f0, String.mk f1⟩])
      | _ => .crash .indexOutOfRange

/-- The function `buildCache` of `main.go`. `output` is what `cmd.Output()`
returned for `kubectl get res --no-headers --all-namespaces`: the text
printed, or the error; `errors.Wrapf` puts its message and a colon before
the message of the error. -/
def buildCache (output : Except String String) (res : String) : Outcome (List Resource) :=
  match output with
  | .error err => .error ("failed to get resource " ++ res ++ ": " ++ err)
  | .ok b => buildCacheLines (bytesSplit '\n' b.data) []

/-! ## A concrete matcher for the scenarios -/

/-- Characters with a special meaning in the expression syntax. -/
def metaChars : List Char := "\\.+*?()|[]\x7b\x7d^$".data

/-- A literal text occurs in `s` at its start. -/
def litStarts : List Char → List Char → Bool
  | [], _ => true
  | _ :: _, [] => false
  | p :: ps, c :: cs => p = c && litStarts ps cs

/-- A literal text occurs somewhere in `s`. -/
def litOccurs (w : List Char) : List Char → Bool
  | [] => litStarts w []
  | c :: cs => litStarts w (c :: cs) || litOccurs w cs

/-- A matcher for the expressions made of literal characters with an optional
leading `^` and an optional trailing `$`, on which it agrees with
`regexp.MatchString`; it accepts no other expression. It is used to run
the scenarios; the general statements hold for every `Regexp`. -/
def anchoredLiteral : Regexp := fun pat =>
  let p := pat.data
  let atStart := p.head? = some '^'
  let p := if atStart then p.tail else p
  let atEnd := p.getLast? = some '$'
  let p := if atEnd then p.dropLast else p
  if p.any (fun c => c ∈ metaChars) then none
  else some (fun s =>
    match decide atStart, decide atEnd with
    | true, true => s.data = p
    | true, false => litStarts p s.data
    | false, true => litStarts p.reverse s.data.reverse
    | false, false => litOccurs p s.data)

/-- The cache of the scenarios. -/
def demoCache : List Resource := [⟨"default", "api-123"⟩, ⟨"default", "worker-9"⟩]

/-- An environment in which every fetch returns `demoCache`. -/
def demoEnv : Env :=
  { fetch := fun _ => .ok demoCache, rx := anchoredLiteral, term := "", termCaps := .error "stty" }

/-! ## Vocabulary of the statements -/

/-- The condition of the resolver on one text: the pattern is empty, or it
compiles and matches the text (an expression that does not compile matches nothing). -/
def emptyOrMatches (rx : Regexp) (pat s : String) : Bool :=
  pat = "" || (match rx pat with
    | some m => m s
    | none => false)

/-- The resources of `rs` that pass both conditions of the resolver, in the order of `rs`. -/
def candidates (rx : Regexp) (rs : List Resource) (nsPattern rsPattern : String) : List Resource :=
  rs.filter (fun r => emptyOrMatches rx nsPattern r.ns && emptyOrMatches rx rsPattern r.name)

/-- The token is one of the four words `get`, `describe`, `delete`, `edit`, letter case aside. -/
def isKindVerb (a : String) : Bool :=
  kindCmds.contains (String.mk (a.data.map Char.toLower))

/-- The token by which the rewriter replaces a token that is not resolved:
`--all-namespaces` for the lone colon, the token itself otherwise. -/
def mark (a : String) : String :=
  if a = ":" then "--all-namespaces" else a

/-- The value of `getKind` after the tokens `toks` have been processed
starting from the value `k`, when the token that follows `toks` is `next`:
each token matched by `rgxKindCmd` sets it to the token after it. -/
def kindAfter (k : String) : List String → String → String
  | [], _ => k
  | a :: rest, next =>
    kindAfter (if rgxKindCmd a then rest.head?.getD next else k) rest next

/-- The tokens produced for a pattern token resolved to `r`, `rsPattern` being its second part. -/
def resolvedArgs (rsPattern : String) (r : Resource) : List String :=
  (if rsPattern = "" then [] else [r.name]) ++ ["--namespace", r.ns]

/-- A pattern token: it contains a colon, is not the lone colon, and `rgxKindCmd` does not match it. -/
def isPatternToken (a : String) : Bool :=
  decide (':' ∈ a.data) && decide (a ≠ ":") && !rgxKindCmd a

/-- The number of invocations of the fetch callback in a trace. -/
def fetchCount (trace : List Event) : Nat :=
  trace.countP (fun e =>
    match e with
    | .fetch _ => true
    | .search _ _ _ => false)

/-- The resource read from one line of the client's output: the first field
as namespace, the second as name. -/
def lineResource (l : List Char) : Resource :=
  ⟨String.mk ((bytesFields l).getD 0 []), String.mk ((bytesFields l).getD 1 [])⟩

/-- What an iteration that does not resolve appends to `args` for a token
that has a token after it: `exec -it` for `ssh`, `--all-namespaces` for the
lone colon, the token itself otherwise. -/
def emitted (a : String) : List String :=
  if a = "ssh" then ["exec", "-it"]
  else if a = ":" then ["--all-namespaces"]
  else [a]

/-- What iterations that do not resolve append to `args` for a sequence of
tokens that ends the argument vector: `emitted` for each token, except that
a last token matched by `rgxKindCmd` yields nothing. -/
def copied : List String → List String
  | [] => []
  | a :: rest => (if rgxKindCmd a = true ∧ rest = [] then [] else emitted a) ++ copied rest

/-- The value of `tailArgs` after the tokens `toks`, `old` being its value before them. -/
def tailAfter (env : Env) (toks : List String) (old : List String) : List String :=
  if "ssh" ∈ toks then getSSHArgs env.term env.termCaps ++ ["/bin/bash"] else old

/-- The tokens appended for a pattern token split into `nsPattern` and
`rsPattern` and resolved to `r` (lines 141-146). -/
def resolvedTokens (nsPattern rsPattern : String) (r : Resource) : List String :=
  (if rsPattern = "" then [] else [r.name]) ++
    (if nsPattern = "" ∧ rsPattern = "" then [] else ["--namespace", r.ns])

/-- An environment in which every fetch returns the empty list. -/
def emptyEnv : Env :=
  { fetch := fun _ => .ok [], rx := anchoredLiteral, term := "", termCaps := .error "stty" }

/-- An environment in which every fetch fails. -/
def failEnv : Env :=
  { fetch := fun kind => .error ("failed to get resource " ++ kind ++ ": exit status 1"),
    rx := anchoredLiteral, term := "", termCaps := .error "stty" }

/-! ## Lemmas on `keepIf` and `search` -/

theorem length_ne_zero_iff (s : String) : s.length ≠ 0 ↔ s ≠ "" := by
  cases s with
  | mk d =>
    cases d with
    | nil => simp [String.length]
    | cons c cs =>
      simp [String.length]
      intro h
      exact absurd (congrArg String.data h) (by simp)

theorem keepIf_eq_filter (rs : List Resource) (f : Resource → Bool) :
    keepIf rs f = rs.filter f := by
  have key : ∀ (l acc : List Resource),
      l.foldl (fun keep r => if f r then keep ++ [r] else keep) acc = acc ++ l.filter f := by
    intro l
    induction l with
    | nil => intro acc; simp
    | cons x xs ih =>
      intro acc
      by_cases hx : f x = true
      · simp [List.foldl_cons, hx, ih]
      · simp [List.foldl_cons, hx, ih]
  simpa [keepIf] using key rs []

theorem emptyOrMatches_empty (rx : Regexp) (s : String) : emptyOrMatches rx "" s = true := by
  simp [emptyOrMatches]

theorem emptyOrMatches_some (rx : Regexp) (pat s : String) (m : String → Bool)
    (hne : pat ≠ "") (hm : rx pat = some m) : emptyOrMatches rx pat s = m s := by
  simp [emptyOrMatches, hne, hm]

theorem emptyOrMatches_none (rx : Regexp) (pat s : String)
    (hne : pat ≠ "") (hm : rx pat = none) : emptyOrMatches rx pat s = false := by
  simp [emptyOrMatches, hne, hm]

/-- The name stage in terms of the resources whose name passes. -/
theorem searchName_eq (rx : Regexp) (rs : List Resource) (kind rsPattern : String) :
    searchName rx rs kind rsPattern =
      if rsPattern = "" then index0 rs
      else match rx rsPattern with
        | none => .crash (.mustCompile rsPattern)
        | some _ =>
          match rs.filter (fun r => emptyOrMatches rx rsPattern r.name) with
          | [] => .error ("failed to find " ++ kind ++ " matching " ++ rsPattern)
          | [r] => .ok r
          | r :: r2 :: l => .error ("ambiguous query for " ++ kind ++ " matches: "
              ++ fmtResources (r :: r2 :: l)) := by
  by_cases hne : rsPattern = ""
  · subst hne
    simp [searchName]
  · have hlen : rsPattern.length ≠ 0 := (length_ne_zero_iff _).2 hne
    rw [if_neg hne]
    unfold searchName
    rw [if_pos hlen]
    cases hm : rx rsPattern with
    | none => rfl
    | some m =>
      have hf : (fun r : Resource => emptyOrMatches rx rsPattern r.name) = fun r => m r.name := by
        funext r
        exact emptyOrMatches_some rx rsPattern r.name m hne hm
      simp only [keepIf_eq_filter, hf]
      generalize rs.filter (fun r => m r.name) = l
      rcases l with _ | ⟨a, _ | ⟨b, l⟩⟩
      · rfl
      · rfl
      · rfl

/-- The namespace stage in terms of the resources whose namespace passes. -/
theorem search_eq (rx : Regexp) (rs : List Resource) (kind nsPattern rsPattern : String) :
    search rx rs kind nsPattern rsPattern =
      if nsPattern = "" then searchName rx rs kind rsPattern
      else match rx nsPattern with
        | none => .crash (.mustCompile nsPattern)
        | some _ =>
          if rs.filter (fun r => emptyOrMatches rx nsPattern r.ns) = [] then
            .error ("no resources found in namespaces matching " ++ nsPattern)
          else searchName rx (rs.filter (fun r => emptyOrMatches rx nsPattern r.ns)) kind rsPattern := by
  by_cases hne : nsPattern = ""
  · subst hne
    simp [search]
  · have hlen : nsPattern.length ≠ 0 := (length_ne_zero_iff _).2 hne
    rw [if_neg hne]
    unfold search
    rw [if_pos hlen]
    cases hm : rx nsPattern with
    | none => rfl
    | some m =>
      have hf : (fun r : Resource => emptyOrMatches rx nsPattern r.ns) = fun r => m r.ns := by
        funext r
        exact emptyOrMatches_some rx nsPattern r.ns m hne hm
      simp only [keepIf_eq_filter, hf, List.length_eq_zero]

/-- The candidates are the name filter applied after the namespace filter. -/
theorem candidates_eq (rx : Regexp) (rs : List Resource) (nsPattern rsPattern : String) :
    candidates rx rs nsPattern rsPattern =
      (rs.filter (fun r => emptyOrMatches rx nsPattern r.ns)).filter
        (fun r => emptyOrMatches rx rsPattern r.name) := by
  simp [candidates, List.filter_filter, Bool.and_comm]

/-! ## The resolver `search` (C1 to C5) -/

/-- C1. When exactly one element of `rs` passes both conditions (its
namespace passes `nsPattern`, its name passes `rsPattern`, an empty pattern
passing everything), `search` returns that element and no error. A pattern
that does not compile passes nothing, so both patterns are valid expressions
under the hypothesis. -/
theorem search_unique_match (rx : Regexp) (rs : List Resource)
    (kind nsPattern rsPattern : String) (r : Resource)
    (huniq : candidates rx rs nsPattern rsPattern = [r]) :
    search rx rs kind nsPattern rsPattern = .ok r := by
  rw [candidates_eq] at huniq
  rw [search_eq]
  by_cases hns : nsPattern = ""
  · subst hns
    simp only [emptyOrMatches_empty, List.filter_true] at huniq
    rw [if_pos rfl, searchName_eq]
    by_cases hrs : rsPattern = ""
    · subst hrs
      simp only [emptyOrMatches_empty, List.filter_true] at huniq
      simp [huniq, index0]
    · rw [if_neg hrs]
      cases hm : rx rsPattern with
      | none =>
        simp [emptyOrMatches_none rx rsPattern _ hrs hm] at huniq
      | some m => simp [huniq]
  · rw [if_neg hns]
    cases hmn : rx nsPattern with
    | none =>
      simp [emptyOrMatches_none rx nsPattern _ hns hmn] at huniq
    | some mn =>
      have hne : rs.filter (fun r => emptyOrMatches rx nsPattern r.ns) ≠ [] := by
        intro h
        rw [h] at huniq
        simp at huniq
      simp only [if_neg hne]
      rw [searchName_eq]
      by_cases hrs : rsPattern = ""
      · subst hrs
        simp only [emptyOrMatches_empty, List.filter_true] at huniq
        simp [huniq, index0]
      · rw [if_neg hrs]
        cases hm : rx rsPattern with
        | none =>
          simp [emptyOrMatches_none rx rsPattern _ hrs hm] at huniq
        | some m => simp [huniq]

/-- Witness of C1: in the cache of the scenarios exactly one resource passes `def` and `^api`. -/
theorem search_unique_match_witness :
    candidates anchoredLiteral demoCache "def" "^api" = [⟨"default", "api-123"⟩] ∧
    search anchoredLiteral demoCache "pod" "def" "^api" = .ok ⟨"default", "api-123"⟩ :=
  ⟨by decide, search_unique_match anchoredLiteral demoCache "pod" "def" "^api" _ (by decide)⟩

/-- C2. With a non-empty name pattern, when two or more elements of `rs`
pass both conditions, `search` returns an error and no resource; the message
names the kind and lists exactly the passing elements, each as
`namespace:name`, in the order of `rs`. -/
theorem search_ambiguous (rx : Regexp) (rs : List Resource)
    (kind nsPattern rsPattern : String)
    (hne : rsPattern ≠ "")
    (hmany : 2 ≤ (candidates rx rs nsPattern rsPattern).length) :
    search rx rs kind nsPattern rsPattern =
      .error ("ambiguous query for " ++ kind ++ " matches: [" ++
        " ".intercalate ((candidates rx rs nsPattern rsPattern).map
          (fun r => r.ns ++ ":" ++ r.name)) ++ "]") := by
  rw [candidates_eq] at hmany ⊢
  have hrx : ∃ m, rx rsPattern = some m := by
    cases hm : rx rsPattern with
    | none => simp [emptyOrMatches_none rx rsPattern _ hne hm] at hmany
    | some m => exact ⟨m, rfl⟩
  obtain ⟨m, hm⟩ := hrx
  have hfmt : ∀ l : List Resource,
      "ambiguous query for " ++ kind ++ " matches: " ++ fmtResources l =
        "ambiguous query for " ++ kind ++ " matches: [" ++
          " ".intercalate (l.map (fun r => r.ns ++ ":" ++ r.name)) ++ "]" := by
    intro l
    have e : (" matches: [" : String) = " matches: " ++ "[" := by decide
    show _ ++ ("[" ++ " ".intercalate (l.map (fun r => r.ns ++ ":" ++ r.name)) ++ "]") = _
    rw [e]
    repeat rw [← String.append_assoc]
  have hname : ∀ l : List Resource,
      2 ≤ (l.filter (fun r => emptyOrMatches rx rsPattern r.name)).length →
      searchName rx l kind rsPattern =
        .error ("ambiguous query for " ++ kind ++ " matches: [" ++
          " ".intercalate ((l.filter (fun r => emptyOrMatches rx rsPattern r.name)).map
            (fun r => r.ns ++ ":" ++ r.name)) ++ "]") := by
    intro l hl
    rw [searchName_eq, if_neg hne, hm]
    generalize l.filter (fun r => emptyOrMatches rx rsPattern r.name) = c at hl
    rcases c with _ | ⟨a, _ | ⟨b, c⟩⟩
    · simp at hl
    · simp at hl
    · simp only [hfmt]
  rw [search_eq]
  by_cases hns : nsPattern = ""
  · subst hns
    rw [if_pos rfl]
    simp only [emptyOrMatches_empty, List.filter_true] at hmany ⊢
    exact hname rs hmany
  · rw [if_neg hns]
    cases hmn : rx nsPattern with
    | none => simp [emptyOrMatches_none rx nsPattern _ hns hmn] at hmany
    | some mn =>
      have hne2 : rs.filter (fun r => emptyOrMatches rx nsPattern r.ns) ≠ [] := by
        intro h
        rw [h] at hmany
        simp at hmany
      simp only [if_neg hne2]
      exact hname _ hmany

/-- Witness of C2: the pattern `-` matches both names of the cache of the scenarios. -/
theorem search_ambiguous_witness :
    search anchoredLiteral demoCache "pods" "def" "-" =
      .error "ambiguous query for pods matches: [default:api-123 default:worker-9]" :=
  search_ambiguous anchoredLiteral demoCache "pods" "def" "-" (by decide) (by decide)

/-- C3. When the non-empty namespace pattern compiles and matches the
namespace of no element of `rs` (`rs` may be empty), `search` returns the
error naming the namespace pattern, whatever the name pattern is, and be it
an expression that does not compile: the name stage is not reached. -/
theorem search_namespace_no_match (rx : Regexp) (rs : List Resource)
    (kind nsPattern : String) (m : String → Bool)
    (hne : nsPattern ≠ "") (hm : rx nsPattern = some m)
    (hnone : ∀ r ∈ rs, m r.ns = false) (rsPattern : String) :
    search rx rs kind nsPattern rsPattern =
      .error ("no resources found in namespaces matching " ++ nsPattern) := by
  have hf : rs.filter (fun r => emptyOrMatches rx nsPattern r.ns) = [] := by
    rw [List.filter_eq_nil_iff]
    intro r hr
    rw [emptyOrMatches_some rx nsPattern r.ns m hne hm, hnone r hr]
    simp
  rw [search_eq, if_neg hne, hm]
  simp only [hf, if_true]

/-- Witness of C3: no namespace of the cache of the scenarios matches `prod`;
the name pattern `(` does not compile. -/
theorem search_namespace_no_match_witness :
    search anchoredLiteral demoCache "pods" "prod" "(" =
      .error "no resources found in namespaces matching prod" :=
  search_namespace_no_match anchoredLiteral demoCache "pods" "prod"
    ((anchoredLiteral "prod").getD (fun _ => true)) (by decide) rfl (by decide) "("

/-- C4. With a non-empty name pattern that compiles, when the namespace
stage passes (the namespace pattern is empty, or compiles and matches some
namespace) and the name pattern matches the name of none of the resources
left by the namespace stage, `search` returns the error naming the kind and
the name pattern. -/
theorem search_name_no_match (rx : Regexp) (rs : List Resource)
    (kind nsPattern rsPattern : String) (m : String → Bool)
    (hne : rsPattern ≠ "") (hm : rx rsPattern = some m)
    (hpass : nsPattern = "" ∨
      ∃ mn, rx nsPattern = some mn ∧ ∃ r ∈ rs, mn r.ns = true)
    (hnone : ∀ r ∈ rs, emptyOrMatches rx nsPattern r.ns = true → m r.name = false) :
    search rx rs kind nsPattern rsPattern =
      .error ("failed to find " ++ kind ++ " matching " ++ rsPattern) := by
  have hname : ∀ l : List Resource, (∀ r ∈ l, m r.name = false) →
      searchName rx l kind rsPattern =
        .error ("failed to find " ++ kind ++ " matching " ++ rsPattern) := by
    intro l hl
    have hf : l.filter (fun r => emptyOrMatches rx rsPattern r.name) = [] := by
      rw [List.filter_eq_nil_iff]
      intro r hr
      rw [emptyOrMatches_some rx rsPattern r.name m hne hm, hl r hr]
      simp
    rw [searchName_eq, if_neg hne, hm]
    simp only [hf]
  rw [search_eq]
  by_cases hns : nsPattern = ""
  · subst hns
    rw [if_pos rfl]
    exact hname rs (fun r hr => hnone r hr (emptyOrMatches_empty rx r.ns))
  · rw [if_neg hns]
    rcases hpass with h | ⟨mn, hmn, r0, hr0, hmatch⟩
    · exact absurd h hns
    · have hne2 : rs.filter (fun r => emptyOrMatches rx nsPattern r.ns) ≠ [] := by
        intro h
        rw [List.filter_eq_nil_iff] at h
        have := h r0 hr0
        rw [emptyOrMatches_some rx nsPattern r0.ns mn hns hmn] at this
        exact this hmatch
      rw [hmn]
      simp only [if_neg hne2]
      apply hname
      intro r hr
      rw [List.mem_filter] at hr
      exact hnone r hr.1 hr.2

/-- Witness of C4: the name pattern `zzz` on the cache of the scenarios. -/
theorem search_name_no_match_witness :
    search anchoredLiteral demoCache "pods" "" "zzz" =
      .error "failed to find pods matching zzz" :=
  search_name_no_match anchoredLiteral demoCache "pods" "" "zzz"
    ((anchoredLiteral "zzz").getD (fun _ => true)) (by decide) rfl (Or.inl rfl)
    (by decide)

/-- C5. With both patterns empty, `search` on a non-empty list returns its
first element and no error, for every kind. -/
theorem search_empty_patterns (rx : Regexp) (r : Resource) (rs : List Resource)
    (kind : String) :
    search rx (r :: rs) kind "" "" = .ok r := by
  rw [search_eq, if_pos rfl, searchName_eq, if_pos rfl]
  rfl

/-! ## Lemmas on the loop of `buildArgs` -/

theorem splitColon_no_colon (b : List Char) (hb : ':' ∉ b) : splitColon b = [b] := by
  induction b with
  | nil => rfl
  | cons c cs ih =>
    have hc : c ≠ ':' := fun h => hb (by simp [h])
    have hcs : ':' ∉ cs := fun h => hb (List.mem_cons_of_mem _ h)
    simp [splitColon, hc, ih hcs]

theorem splitColon_append (a b : List Char) (ha : ':' ∉ a) :
    splitColon (a ++ ':' :: b) = a :: splitColon b := by
  induction a with
  | nil => simp [splitColon]
  | cons c cs ih =>
    have hc : c ≠ ':' := fun h => ha (by simp [h])
    have hcs : ':' ∉ cs := fun h => ha (List.mem_cons_of_mem _ h)
    simp [splitColon, hc, ih hcs]

theorem pair_data (ns nm : String) : (ns ++ ":" ++ nm).data = ns.data ++ ':' :: nm.data := by
  simp [String.data_append]

/-- A token `ns:nm` without further colons splits into `ns` and `nm`. -/
theorem stringsSplit_pair (ns nm : String) (hns : ':' ∉ ns.data) (hnm : ':' ∉ nm.data) :
    stringsSplit (ns ++ ":" ++ nm) = [ns, nm] := by
  simp [stringsSplit, pair_data, splitColon_append _ _ hns, splitColon_no_colon _ hnm]

theorem pair_ne_ssh (ns nm : String) : ns ++ ":" ++ nm ≠ "ssh" := by
  intro h
  have h2 : ':' ∈ ("ssh" : String).data := by
    rw [← h, pair_data]
    simp
  exact absurd h2 (by decide)

theorem pair_ne_colon (ns nm : String) (hne : ns ≠ "" ∨ nm ≠ "") : ns ++ ":" ++ nm ≠ ":" := by
  intro h
  have h2 := congrArg String.data h
  rw [pair_data] at h2
  have h3 : ns.data = [] ∧ nm.data = [] := by
    cases hn : ns.data with
    | nil =>
      rw [hn] at h2
      simpa using h2
    | cons c cs =>
      rw [hn] at h2
      have := congrArg List.length h2
      simp at this
  rcases hne with h4 | h4
  · exact h4 (String.ext h3.1)
  · exact h4 (String.ext h3.2)

/-- One iteration on a token that is not `ssh` and is the lone colon or has
no colon, when a token follows: the token (marked) is appended to `args`,
and `getKind` follows `kindAfter`. -/
theorem loop_simple_cons (env : Env) (st : St) (a b : String) (rest : List String)
    (ha : a ≠ "ssh" ∧ (a = ":" ∨ ':' ∉ a.data)) :
    loop env st (a :: b :: rest) =
      loop env { st with args := st.args ++ [mark a],
                         getKind := if rgxKindCmd a then b else st.getKind } (b :: rest) := by
  obtain ⟨hssh, hc⟩ := ha
  by_cases hcolon : a = ":"
  · subst hcolon
    have hr : rgxKindCmd ":" = false := by decide
    rw [loop, if_neg hssh, if_pos rfl]
    simp [mark, hr]
  · have hnc : ':' ∉ a.data := hc.resolve_left hcolon
    by_cases hr : rgxKindCmd a = true
    · rw [loop, if_neg hssh, if_neg hcolon, if_pos hr]
      simp [mark, hcolon, hr]
    · have hr2 : rgxKindCmd a = false := by simpa using hr
      rw [loop, if_neg hssh, if_neg hcolon, if_neg hr, if_neg (fun h => hnc h.2)]
      simp [mark, hcolon, hr2]

/-- The loop over a prefix of tokens none of which is `ssh` or a token with
a colon other than the lone colon, when a token `t` follows the prefix. -/
theorem loop_simple_front (env : Env) (P : List String) (t : String) (S : List String)
    (hP : ∀ a ∈ P, a ≠ "ssh" ∧ (a = ":" ∨ ':' ∉ a.data)) (st : St) :
    loop env st (P ++ t :: S) =
      loop env { st with args := st.args ++ P.map mark,
                         getKind := kindAfter st.getKind P t } (t :: S) := by
  induction P generalizing st with
  | nil => simp [kindAfter]
  | cons a P ih =>
    have ha := hP a (List.mem_cons_self _ _)
    have hP2 : ∀ x ∈ P, x ≠ "ssh" ∧ (x = ":" ∨ ':' ∉ x.data) :=
      fun x hx => hP x (List.mem_cons_of_mem _ hx)
    cases P with
    | nil =>
      simp only [List.cons_append, List.nil_append]
      rw [loop_simple_cons env st a t S ha]
      simp [kindAfter]
    | cons b P =>
      simp only [List.cons_append]
      rw [loop_simple_cons env st a b (P ++ t :: S) ha]
      have := ih hP2 { st with args := st.args ++ [mark a],
                               getKind := if rgxKindCmd a then b else st.getKind }
      simp only [List.cons_append] at this
      rw [this]
      simp [kindAfter]

/-- The loop over tokens that are copied: none is `ssh`, the lone colon, or
matched by `rgxKindCmd`, and none has a colon unless the latch is set. -/
theorem loop_copied (env : Env) (S : List String) (st : St)
    (hS : ∀ a ∈ S, a ≠ "ssh" ∧ a ≠ ":" ∧ rgxKindCmd a = false ∧
      (st.colonFound = true ∨ ':' ∉ a.data)) :
    loop env st S = ⟨.ok (st.args ++ S ++ st.tailArgs), st.trace⟩ := by
  induction S generalizing st with
  | nil => simp [loop]
  | cons a S ih =>
    obtain ⟨hssh, hcolon, hr, hc⟩ := hS a (List.mem_cons_self _ _)
    have hr2 : ¬ rgxKindCmd a = true := by simp [hr]
    have hcase : ¬ (st.colonFound = false ∧ ':' ∈ a.data) := by
      rintro ⟨h1, h2⟩
      rcases hc with h | h
      · simp [h1] at h
      · exact h h2
    rw [loop, if_neg hssh, if_neg hcolon, if_neg hr2, if_neg hcase]
    rw [ih]
    · simp
    · intro x hx
      exact hS x (List.mem_cons_of_mem _ hx)

/-- The iteration on a pattern token `ns:nm` that is resolved to `r`. -/
theorem loop_pattern (env : Env) (st : St) (ns nm : String) (S : List String)
    (cache : List Resource) (r : Resource)
    (hlatch : st.colonFound = false) (hcache : st.cache = [])
    (hns : ':' ∉ ns.data) (hnm : ':' ∉ nm.data) (hne : ns ≠ "" ∨ nm ≠ "")
    (ht : rgxKindCmd (ns ++ ":" ++ nm) = false)
    (hfetch : env.fetch st.getKind = .ok cache)
    (hsearch : search env.rx cache st.getKind ns nm = .ok r) :
    loop env st ((ns ++ ":" ++ nm) :: S) =
      loop env { st with args := st.args ++ resolvedArgs nm r, colonFound := true,
                         cache := cache,
                         trace := st.trace ++ [.fetch st.getKind, .search st.getKind ns nm] } S := by
  have hr2 : ¬ rgxKindCmd (ns ++ ":" ++ nm) = true := by simp [ht]
  have hin : ':' ∈ (ns ++ ":" ++ nm).data := by
    rw [pair_data]
    simp
  rw [loop, if_neg (pair_ne_ssh ns nm), if_neg (pair_ne_colon ns nm hne), if_neg hr2,
    if_pos ⟨hlatch, hin⟩]
  have hres : resolve env st (ns ++ ":" ++ nm) =
      .ok { st with args := st.args ++ resolvedArgs nm r, colonFound := true,
                    cache := cache,
                    trace := st.trace ++ [.fetch st.getKind, .search st.getKind ns nm] } := by
    simp only [resolve, hcache, if_true, hfetch, stringsSplit_pair ns nm hns hnm, hsearch]
    by_cases hnm0 : nm = ""
    · have hns0 : ns ≠ "" := hne.resolve_right (not_not.2 hnm0)
      have hl : ns.length ≠ 0 := (length_ne_zero_iff _).2 hns0
      subst hnm0
      simp [resolvedArgs, hl]
    · have hl : nm.length ≠ 0 := (length_ne_zero_iff _).2 hnm0
      simp [resolvedArgs, hl, hnm0]
  rw [hres]

theorem mark_of_no_colon (a : String) (h : ':' ∉ a.data) : mark a = a := by
  have : a ≠ ":" := by
    intro e
    subst e
    exact h (by decide)
  simp [mark, this]

theorem map_mark_of_no_colon (P : List String) (h : ∀ a ∈ P, ':' ∉ a.data) :
    P.map mark = P := by
  induction P with
  | nil => rfl
  | cons a P ih =>
    simp only [List.map_cons, mark_of_no_colon a (h a (List.mem_cons_self _ _))]
    rw [ih (fun x hx => h x (List.mem_cons_of_mem _ hx))]

theorem kindAfter_of_no_verb (k : String) (P : List String) (t : String)
    (h : ∀ a ∈ P, rgxKindCmd a = false) : kindAfter k P t = k := by
  induction P with
  | nil => rfl
  | cons a P ih =>
    simp only [kindAfter, h a (List.mem_cons_self _ _)]
    exact ih (fun x hx => h x (List.mem_cons_of_mem _ hx))

/-- The loop over tokens none of which is `ssh` or has a colon without being
the lone colon, the last one not being matched by `rgxKindCmd`. -/
theorem loop_simple_all (env : Env) (P : List String) (st : St)
    (hP : ∀ a ∈ P, a ≠ "ssh" ∧ (a = ":" ∨ ':' ∉ a.data))
    (hlast : ∀ a, P.getLast? = some a → rgxKindCmd a = false) :
    loop env st P = ⟨.ok (st.args ++ P.map mark ++ st.tailArgs), st.trace⟩ := by
  rcases List.eq_nil_or_concat P with h | ⟨L, b, h⟩
  · subst h
    simp [loop]
  · subst h
    rw [List.concat_eq_append] at hP hlast ⊢
    have hb := hP b (by simp)
    have hrb : rgxKindCmd b = false := hlast b (by simp)
    have hrb2 : ¬ rgxKindCmd b = true := by simp [hrb]
    rw [loop_simple_front env L b [] (fun a ha => hP a (by simp [ha])) st]
    by_cases hcolon : b = ":"
    · subst hcolon
      rw [loop, if_neg hb.1, if_pos rfl]
      simp [loop, mark]
    · have hnc : ':' ∉ b.data := hb.2.resolve_left hcolon
      rw [loop, if_neg hb.1, if_neg hcolon, if_neg hrb2, if_neg (fun h => hnc h.2)]
      simp [loop, mark, hcolon]

/-! ## The rewriter `buildArgs` (C6 to C10) -/

/-- C6. In an argument vector `P ++ [ns:nm] ++ S` where no token of `P` or
`S` is `ssh` or contains a colon, no token of `S` is matched by
`rgxKindCmd`, `ns` and `nm` contain no colon and are not both empty, and
`rgxKindCmd` does not match `ns:nm`: when the fetch callback returns `cache`
and `search` resolves `(ns, nm)` in it to `r`, `buildArgs` returns
`P ++ [r.name, "--namespace", r.ns] ++ S` when `nm` is not empty and
`P ++ ["--namespace", r.ns] ++ S` when it is. Tokens of `P` matched by
`rgxKindCmd` are copied as well and set the kind, `kindAfter "pods" P _`,
which is `pods` when `P` has no such token. -/
theorem buildArgs_substitutes (env : Env) (exe : String) (P S : List String)
    (ns nm : String) (cache : List Resource) (r : Resource)
    (hP : ∀ a ∈ P, a ≠ "ssh" ∧ ':' ∉ a.data)
    (hS : ∀ a ∈ S, a ≠ "ssh" ∧ ':' ∉ a.data ∧ rgxKindCmd a = false)
    (hns : ':' ∉ ns.data) (hnm : ':' ∉ nm.data) (hne : ns ≠ "" ∨ nm ≠ "")
    (ht : rgxKindCmd (ns ++ ":" ++ nm) = false)
    (hfetch : env.fetch (kindAfter "pods" P (ns ++ ":" ++ nm)) = .ok cache)
    (hsearch : search env.rx cache (kindAfter "pods" P (ns ++ ":" ++ nm)) ns nm = .ok r) :
    (buildArgs env (exe :: (P ++ [ns ++ ":" ++ nm] ++ S))).result =
      .ok (if nm = "" then P ++ ["--namespace", r.ns] ++ S
           else P ++ [r.name, "--namespace", r.ns] ++ S) ∧
    ((∀ a ∈ P, rgxKindCmd a = false) → kindAfter "pods" P (ns ++ ":" ++ nm) = "pods") := by
  refine ⟨?_, kindAfter_of_no_verb "pods" P _⟩
  have hP2 : ∀ a ∈ P, a ≠ "ssh" ∧ (a = ":" ∨ ':' ∉ a.data) :=
    fun a ha => ⟨(hP a ha).1, Or.inr (hP a ha).2⟩
  have hS2 : ∀ (st : St), ∀ a ∈ S, a ≠ "ssh" ∧ a ≠ ":" ∧ rgxKindCmd a = false ∧
      (st.colonFound = true ∨ ':' ∉ a.data) := by
    intro st a ha
    obtain ⟨h1, h2, h3⟩ := hS a ha
    refine ⟨h1, ?_, h3, Or.inr h2⟩
    intro e
    subst e
    exact h2 (by decide)
  have e1 : buildArgs env (exe :: (P ++ [ns ++ ":" ++ nm] ++ S)) =
      loop env St.init (P ++ (ns ++ ":" ++ nm) :: S) := by
    simp [buildArgs]
  rw [e1, loop_simple_front env P _ S hP2 St.init]
  have e2 := loop_pattern env
    { St.init with args := St.init.args ++ P.map mark,
                   getKind := kindAfter St.init.getKind P (ns ++ ":" ++ nm) }
    ns nm S cache r rfl rfl hns hnm hne ht hfetch hsearch
  rw [e2, loop_copied env S _ (hS2 _), map_mark_of_no_colon P (fun a ha => (hP a ha).2)]
  by_cases hnm0 : nm = ""
  · simp only [St.init, resolvedArgs, hnm0, if_true]
    simp
  · simp only [St.init, resolvedArgs, hnm0, if_false]
    simp

/-- Witness of C6: `describe pod def:^api` on the cache of the scenarios. -/
theorem buildArgs_substitutes_witness :
    (buildArgs demoEnv ["kctl", "describe", "pod", "def:^api"]).result =
      .ok ["describe", "pod", "api-123", "--namespace", "default"] :=
  (buildArgs_substitutes demoEnv "kctl" ["describe", "pod"] [] "def" "^api" demoCache
    ⟨"default", "api-123"⟩ (by decide) (by decide) (by decide) (by decide) (by decide)
    (by decide) rfl (by decide)).1

/-- C7, evaluated at a vector whose tokens contain no colon, are not `ssh`
and are none of the four verbs: the last token, `widget`, contains `get`, is
matched by `rgxKindCmd`, has no token after it and is not emitted. -/
theorem buildArgs_drops_widget (env : Env) :
    (∀ a ∈ ["logs", "widget"], ':' ∉ a.data ∧ a ≠ "ssh" ∧ isKindVerb a = false) ∧
    rgxKindCmd "widget" = true ∧
    buildArgs env ["kctl", "logs", "widget"] = ⟨.ok ["logs"], []⟩ := by
  refine ⟨by decide, by decide, ?_⟩
  rfl

/-- C8. Let `P` be a sequence of tokens each of which is the lone colon, or
is not `ssh` and has no colon. Every lone colon of `P` is replaced, at its
position, by the one token `--all-namespaces` (`P.map mark`), the other
tokens being copied: (1) when the last token of `P` is not matched by
`rgxKindCmd`, `buildArgs` on `P` returns `P.map mark` and invokes neither the
fetch callback nor `search`; (2) the latch is not set: a pattern token
`ns:nm` that follows `P` is still resolved, with one fetch and one search;
(3) in whatever state the loop meets a lone colon, the iteration appends
`--all-namespaces` to `args` and changes nothing else. -/
theorem buildArgs_all_namespaces (env : Env) (exe : String) (P : List String)
    (hP : ∀ a ∈ P, a = ":" ∨ (a ≠ "ssh" ∧ ':' ∉ a.data)) :
    ((∀ a, P.getLast? = some a → rgxKindCmd a = false) →
      buildArgs env (exe :: P) = ⟨.ok (P.map mark), []⟩) ∧
    (∀ (ns nm : String) (S : List String) (cache : List Resource) (r : Resource),
      (∀ a ∈ S, a ≠ "ssh" ∧ ':' ∉ a.data ∧ rgxKindCmd a = false) →
      ':' ∉ ns.data → ':' ∉ nm.data → (ns ≠ "" ∨ nm ≠ "") →
      rgxKindCmd (ns ++ ":" ++ nm) = false →
      env.fetch (kindAfter "pods" P (ns ++ ":" ++ nm)) = .ok cache →
      search env.rx cache (kindAfter "pods" P (ns ++ ":" ++ nm)) ns nm = .ok r →
      buildArgs env (exe :: (P ++ [ns ++ ":" ++ nm] ++ S)) =
        ⟨.ok (P.map mark ++ (if nm = "" then [] else [r.name]) ++ ["--namespace", r.ns] ++ S),
         [.fetch (kindAfter "pods" P (ns ++ ":" ++ nm)),
          .search (kindAfter "pods" P (ns ++ ":" ++ nm)) ns nm]⟩) ∧
    (∀ (st : St) (rest : List String),
      loop env st (":" :: rest) =
        loop env { st with args := st.args ++ ["--all-namespaces"] } rest) := by
  have hP2 : ∀ a ∈ P, a ≠ "ssh" ∧ (a = ":" ∨ ':' ∉ a.data) := by
    intro a ha
    rcases hP a ha with h | h
    · subst h
      exact ⟨by decide, Or.inl rfl⟩
    · exact ⟨h.1, Or.inr h.2⟩
  refine ⟨?_, ?_, ?_⟩
  rotate_left 2
  · intro st rest
    rw [loop, if_neg (by decide), if_pos rfl]
  · intro hlast
    have e1 : buildArgs env (exe :: P) = loop env St.init P := by simp [buildArgs]
    rw [e1, loop_simple_all env P St.init hP2 hlast]
    simp [St.init]
  · intro ns nm S cache r hS hns hnm hne ht hfetch hsearch
    have hS2 : ∀ (st : St), ∀ a ∈ S, a ≠ "ssh" ∧ a ≠ ":" ∧ rgxKindCmd a = false ∧
        (st.colonFound = true ∨ ':' ∉ a.data) := by
      intro st a ha
      obtain ⟨h1, h2, h3⟩ := hS a ha
      refine ⟨h1, ?_, h3, Or.inr h2⟩
      intro e
      subst e
      exact h2 (by decide)
    have e1 : buildArgs env (exe :: (P ++ [ns ++ ":" ++ nm] ++ S)) =
        loop env St.init (P ++ (ns ++ ":" ++ nm) :: S) := by
      simp [buildArgs]
    rw [e1, loop_simple_front env P _ S hP2 St.init]
    have e2 := loop_pattern env
      { St.init with args := St.init.args ++ P.map mark,
                     getKind := kindAfter St.init.getKind P (ns ++ ":" ++ nm) }
      ns nm S cache r rfl rfl hns hnm hne ht hfetch hsearch
    rw [e2, loop_copied env S _ (hS2 _)]
    simp only [St.init, resolvedArgs]
    simp

/-- Witness of C8: `get pods :` gives `get pods --all-namespaces` with no
fetch, and in `: def:^api` the pattern token after the lone colon is resolved. -/
theorem buildArgs_all_namespaces_witness :
    buildArgs demoEnv ["kctl", "get", "pods", ":"] =
      ⟨.ok ["get", "pods", "--all-namespaces"], []⟩ ∧
    buildArgs demoEnv ["kctl", ":", "def:^api"] =
      ⟨.ok ["--all-namespaces", "api-123", "--namespace", "default"],
       [.fetch "pods", .search "pods" "def" "^api"]⟩ :=
  ⟨(buildArgs_all_namespaces demoEnv "kctl" ["get", "pods", ":"] (by decide)).1 (by decide),
   (buildArgs_all_namespaces demoEnv "kctl" [":"] (by decide)).2.1 "def" "^api" []
     demoCache ⟨"default", "api-123"⟩ (by decide) (by decide) (by decide) (by decide)
     (by decide) rfl (by decide)⟩

/-! ### The body of the pattern case -/

theorem fetchCount_append (t1 t2 : List Event) :
    fetchCount (t1 ++ t2) = fetchCount t1 + fetchCount t2 := by
  simp [fetchCount, List.countP_append]

/-- When the pattern case returns from `buildArgs`, it returns no argument vector. -/
theorem resolve_error (env : Env) (st : St) (a : String) (run : Run)
    (h : resolve env st a = .error run) :
    (∀ out, run.result ≠ .ok out) ∧
    fetchCount run.trace = fetchCount st.trace + (if st.cache = [] then 1 else 0) := by
  unfold resolve at h
  by_cases hc : st.cache = []
  · simp only [hc, if_true] at h ⊢
    cases hf : env.fetch st.getKind with
    | error err =>
      simp only [hf] at h
      injection h with h
      subst h
      simp [fetchCount_append, fetchCount]
    | ok cache =>
      simp only [hf] at h
      split at h
      · split at h
        · injection h with h
          subst h
          simp [fetchCount_append, fetchCount]
        · injection h with h
          subst h
          simp [fetchCount_append, fetchCount]
        · cases h
      · injection h with h
        subst h
        simp [fetchCount_append, fetchCount]
  · simp only [hc, if_false] at h ⊢
    split at h
    · split at h
      · injection h with h
        subst h
        simp [fetchCount_append, fetchCount]
      · injection h with h
        subst h
        simp [fetchCount_append, fetchCount]
      · cases h
    · injection h with h
      subst h
      simp

/-- When the pattern case falls out of the `switch`, it has appended to
`args`, left `tailArgs` alone and set the latch. -/
theorem resolve_ok (env : Env) (st : St) (a : String) (st2 : St)
    (h : resolve env st a = .ok st2) :
    (∃ e, st2.args = st.args ++ e) ∧ st2.tailArgs = st.tailArgs ∧ st2.colonFound = true ∧
    fetchCount st2.trace = fetchCount st.trace + (if st.cache = [] then 1 else 0) := by
  unfold resolve at h
  by_cases hc : st.cache = []
  · simp only [hc, if_true] at h ⊢
    cases hf : env.fetch st.getKind with
    | error err =>
      simp only [hf] at h
      cases h
    | ok cache =>
      simp only [hf] at h
      split at h
      · split at h
        · cases h
        · cases h
        · injection h with h
          subst h
          split_ifs <;> simp [fetchCount_append, fetchCount]
      · cases h
  · simp only [hc, if_false] at h ⊢
    split at h
    · split at h
      · cases h
      · cases h
      · injection h with h
        subst h
        split_ifs <;> simp [fetchCount_append, fetchCount]
    · cases h

/-! ### The whole loop -/

theorem rgxKindCmd_ssh : rgxKindCmd "ssh" = false := by decide

theorem rgxKindCmd_colon : rgxKindCmd ":" = false := by decide

/-- Once the latch is set, the loop invokes neither the fetch callback nor `search`. -/
theorem loop_latched (env : Env) (argv : List String) (st : St)
    (hlatch : st.colonFound = true) : (loop env st argv).trace = st.trace := by
  induction argv generalizing st with
  | nil => simp [loop]
  | cons a rest ih =>
    rw [loop]
    have hp : ¬ (st.colonFound = false ∧ ':' ∈ a.data) := by simp [hlatch]
    rw [if_neg hp]
    split_ifs
    · exact ih _ hlatch
    · exact ih _ hlatch
    · cases rest.head? with
      | none => exact ih _ hlatch
      | some next => exact ih _ hlatch
    · exact ih _ hlatch

theorem isPatternToken_iff (a : String) :
    isPatternToken a = true ↔ ':' ∈ a.data ∧ a ≠ ":" ∧ rgxKindCmd a = false := by
  simp [isPatternToken, and_assoc]

/-- The number of fetches of the loop entered with the latch not set and the cache nil. -/
theorem loop_fetchCount (env : Env) (argv : List String) (st : St)
    (hlatch : st.colonFound = false) (hcache : st.cache = []) :
    fetchCount (loop env st argv).trace ≤ fetchCount st.trace + 1 ∧
    ((∃ t ∈ argv, isPatternToken t = true) →
      fetchCount (loop env st argv).trace = fetchCount st.trace + 1) ∧
    ((∀ a ∈ argv, ':' ∉ a.data) →
      fetchCount (loop env st argv).trace = fetchCount st.trace) := by
  induction argv generalizing st with
  | nil => simp [loop]
  | cons a rest ih =>
    have hstep : ∀ st2 : St, st2.colonFound = false → st2.cache = [] → st2.trace = st.trace →
        isPatternToken a = false → (':' ∈ a.data → a = ":") →
        loop env st (a :: rest) = loop env st2 rest →
        fetchCount (loop env st (a :: rest)).trace ≤ fetchCount st.trace + 1 ∧
        ((∃ t ∈ a :: rest, isPatternToken t = true) →
          fetchCount (loop env st (a :: rest)).trace = fetchCount st.trace + 1) ∧
        ((∀ x ∈ a :: rest, ':' ∉ x.data) →
          fetchCount (loop env st (a :: rest)).trace = fetchCount st.trace) := by
      intro st2 h1 h2 h3 h4 _ h6
      obtain ⟨i1, i2, i3⟩ := ih st2 h1 h2
      rw [h6, ← h3]
      refine ⟨i1, ?_, ?_⟩
      · rintro ⟨t, ht, hpt⟩
        rcases List.mem_cons.1 ht with e | e
        · subst e
          rw [h4] at hpt
          cases hpt
        · exact i2 ⟨t, e, hpt⟩
      · intro hall
        exact i3 (fun x hx => hall x (List.mem_cons_of_mem _ hx))
    by_cases hssh : a = "ssh"
    · refine hstep { st with
        args := st.args ++ ["exec", "-it"],
        tailArgs := getSSHArgs env.term env.termCaps ++ ["/bin/bash"] } hlatch hcache rfl ?_ ?_ ?_
      · subst hssh
        decide
      · subst hssh
        decide
      · rw [loop, if_pos hssh]
    · by_cases hcolon : a = ":"
      · refine hstep { st with args := st.args ++ ["--all-namespaces"] } hlatch hcache rfl
          ?_ ?_ ?_
        · subst hcolon
          decide
        · exact fun _ => hcolon
        · rw [loop, if_neg hssh, if_pos hcolon]
      · by_cases hr : rgxKindCmd a = true
        · have hnp : isPatternToken a = false := by simp [isPatternToken, hr]
          cases hh : rest.head? with
          | none =>
            have hrest : rest = [] := by
              cases rest with
              | nil => rfl
              | cons b l => simp at hh
            subst hrest
            have e : loop env st [a] = ⟨.ok (st.args ++ st.tailArgs), st.trace⟩ := by
              rw [loop, if_neg hssh, if_neg hcolon, if_pos hr]
              simp [loop]
            rw [e]
            refine ⟨by simp, ?_, fun _ => rfl⟩
            rintro ⟨t, ht, hpt⟩
            simp only [List.mem_singleton] at ht
            subst ht
            rw [hnp] at hpt
            cases hpt
          | some next =>
            have e : loop env st (a :: rest) =
                loop env { st with args := st.args ++ [a], getKind := next } rest := by
              rw [loop, if_neg hssh, if_neg hcolon, if_pos hr]
              simp only [hh]
            obtain ⟨i1, i2, i3⟩ := ih { st with args := st.args ++ [a], getKind := next }
              hlatch hcache
            rw [e]
            refine ⟨i1, ?_, ?_⟩
            · rintro ⟨t, ht, hpt⟩
              rcases List.mem_cons.1 ht with e2 | e2
              · subst e2
                rw [hnp] at hpt
                cases hpt
              · exact i2 ⟨t, e2, hpt⟩
            · intro hall
              exact i3 (fun x hx => hall x (List.mem_cons_of_mem _ hx))
        · by_cases hc : ':' ∈ a.data
          · have hone : fetchCount (loop env st (a :: rest)).trace = fetchCount st.trace + 1 := by
              rw [loop, if_neg hssh, if_neg hcolon, if_neg hr, if_pos ⟨hlatch, hc⟩]
              cases hres : resolve env st a with
              | error run =>
                simp only [hres]
                rw [(resolve_error env st a run hres).2]
                simp [hcache]
              | ok st2 =>
                simp only [hres]
                obtain ⟨_, _, hl, hn⟩ := resolve_ok env st a st2 hres
                rw [loop_latched env rest st2 hl, hn]
                simp [hcache]
            refine ⟨by omega, fun _ => hone, ?_⟩
            intro hall
            exact absurd hc (hall a (List.mem_cons_self _ _))
          · refine hstep { st with args := st.args ++ [a] } hlatch hcache rfl ?_ ?_ ?_
            · simp [isPatternToken, hc]
            · exact fun h => absurd h hc
            · rw [loop, if_neg hssh, if_neg hcolon, if_neg hr, if_neg (fun h => hc h.2)]

/-- C10. One run of `buildArgs` invokes the fetch callback at most once;
exactly once when the argument vector has a pattern token (a token with a
colon that is not the lone colon and that `rgxKindCmd` does not match), hence
also when it has two; never when no token has a colon. -/
theorem buildArgs_fetch_once (env : Env) (exe : String) (argv : List String) :
    fetchCount (buildArgs env (exe :: argv)).trace ≤ 1 ∧
    ((∃ t ∈ argv, isPatternToken t = true) →
      fetchCount (buildArgs env (exe :: argv)).trace = 1) ∧
    ((∀ a ∈ argv, ':' ∉ a.data) →
      fetchCount (buildArgs env (exe :: argv)).trace = 0) := by
  have e1 : buildArgs env (exe :: argv) = loop env St.init argv := by simp [buildArgs]
  have h := loop_fetchCount env argv St.init rfl rfl
  rw [e1]
  simpa [St.init, fetchCount] using h

/-- Witness of C10: two pattern tokens and one fetch; no colon and no fetch. -/
theorem buildArgs_fetch_once_witness :
    fetchCount (buildArgs demoEnv ["kctl", "exec", "def:^api", "x:y"]).trace = 1 ∧
    fetchCount (buildArgs demoEnv ["kctl", "get", "pods"]).trace = 0 :=
  ⟨(buildArgs_fetch_once demoEnv "kctl" ["exec", "def:^api", "x:y"]).2.1
      ⟨"def:^api", by decide, by decide⟩,
   (buildArgs_fetch_once demoEnv "kctl" ["get", "pods"]).2.2 (by decide)⟩

/-! ## Iterations that do not resolve, in general -/

theorem ne_ssh_of_colon (a : String) (h : ':' ∈ a.data) : a ≠ "ssh" := by
  intro e
  subst e
  exact absurd h (by decide)

/-- A token that is no pattern token, or any token once the latch is set,
does not enter the pattern case. -/
theorem not_pattern_case (st : St) (a : String)
    (ha : isPatternToken a = false ∨ st.colonFound = true)
    (hcolon : a ≠ ":") (hr : ¬ rgxKindCmd a = true) :
    ¬ (st.colonFound = false ∧ ':' ∈ a.data) := by
  rintro ⟨h1, h2⟩
  rcases ha with h | h
  · have := (isPatternToken_iff a).2 ⟨h2, hcolon, by simpa using hr⟩
    rw [h] at this
    cases this
  · rw [h1] at h
    cases h

/-- One iteration that does not resolve. -/
theorem loop_step (env : Env) (st : St) (a : String) (rest : List String)
    (ha : isPatternToken a = false ∨ st.colonFound = true) :
    loop env st (a :: rest) =
      loop env { st with
        args := st.args ++ (if rgxKindCmd a = true ∧ rest = [] then [] else emitted a),
        tailArgs := tailAfter env [a] st.tailArgs,
        getKind := if rgxKindCmd a = true then rest.head?.getD st.getKind else st.getKind }
        rest := by
  by_cases hssh : a = "ssh"
  · subst hssh
    rw [loop, if_pos rfl]
    simp [emitted, tailAfter, rgxKindCmd_ssh]
  · have hne : ¬ "ssh" = a := fun h => hssh h.symm
    by_cases hcolon : a = ":"
    · subst hcolon
      rw [loop, if_neg hssh, if_pos rfl]
      simp [emitted, tailAfter, rgxKindCmd_colon]
    · by_cases hr : rgxKindCmd a = true
      · rw [loop, if_neg hssh, if_neg hcolon, if_pos hr]
        cases rest with
        | nil => simp [tailAfter, hr, hne]
        | cons b rest => simp [emitted, tailAfter, hr, hne, hssh, hcolon]
      · rw [loop, if_neg hssh, if_neg hcolon, if_neg hr,
          if_neg (not_pattern_case st a ha hcolon hr)]
        simp [emitted, tailAfter, hr, hne, hssh, hcolon]

theorem tailAfter_cons (env : Env) (a : String) (P : List String) (old : List String) :
    tailAfter env P (tailAfter env [a] old) = tailAfter env (a :: P) old := by
  by_cases h1 : "ssh" ∈ P
  · simp [tailAfter, h1]
  · by_cases h2 : "ssh" = a
    · simp [tailAfter, h1, h2]
    · simp [tailAfter, h1, h2]

/-- The loop over a front of tokens none of which is resolved, a token `t` following the front. -/
theorem loop_front (env : Env) (P : List String) (t : String) (S : List String) (st : St)
    (hP : ∀ a ∈ P, isPatternToken a = false ∨ st.colonFound = true) :
    loop env st (P ++ t :: S) =
      loop env { st with
        args := st.args ++ (P.map emitted).flatten,
        tailArgs := tailAfter env P st.tailArgs,
        getKind := kindAfter st.getKind P t } (t :: S) := by
  induction P generalizing st with
  | nil => simp [kindAfter, tailAfter]
  | cons a P ih =>
    have ha := hP a (List.mem_cons_self _ _)
    have hne : ¬ (P ++ t :: S = []) := by simp
    rw [List.cons_append, loop_step env st a (P ++ t :: S) ha]
    rw [ih { st with
        args := st.args ++ (if rgxKindCmd a = true ∧ P ++ t :: S = [] then [] else emitted a),
        tailArgs := tailAfter env [a] st.tailArgs,
        getKind := if rgxKindCmd a = true then (P ++ t :: S).head?.getD st.getKind
          else st.getKind }
      (fun x hx => hP x (List.mem_cons_of_mem _ hx))]
    have hk : (P ++ t :: S).head?.getD st.getKind = P.head?.getD t := by
      cases P with
      | nil => rfl
      | cons b P => rfl
    simp only [hne, and_false, if_false, tailAfter_cons, hk, List.append_assoc, List.map_cons,
      List.flatten_cons, kindAfter]

theorem tailAfter_nil (env : Env) (old : List String) : tailAfter env [] old = old := by
  simp [tailAfter]

/-- The loop over tokens none of which is resolved, to the end of the argument vector. -/
theorem loop_copied_all (env : Env) (S : List String) (st : St)
    (hS : ∀ a ∈ S, isPatternToken a = false ∨ st.colonFound = true) :
    loop env st S =
      ⟨.ok (st.args ++ copied S ++ tailAfter env S st.tailArgs), st.trace⟩ := by
  induction S generalizing st with
  | nil => simp [loop, copied, tailAfter]
  | cons a S ih =>
    rw [loop_step env st a S (hS a (List.mem_cons_self _ _))]
    rw [ih { st with
        args := st.args ++ (if rgxKindCmd a = true ∧ S = [] then [] else emitted a),
        tailArgs := tailAfter env [a] st.tailArgs,
        getKind := if rgxKindCmd a = true then S.head?.getD st.getKind else st.getKind }
      (fun x hx => hS x (List.mem_cons_of_mem _ hx))]
    simp only [tailAfter_cons, copied, List.append_assoc]

/-! ## The iteration on a pattern token, in general -/

/-- The first two pieces of a text `x:y` or `x:y:z...`, `x` and `y` without colon. -/
theorem splitColon_two (x y z : List Char) (hx : ':' ∉ x) (hy : ':' ∉ y)
    (hz : z = [] ∨ z.head? = some ':') :
    ∃ more, splitColon (x ++ ':' :: (y ++ z)) = x :: y :: more := by
  rw [splitColon_append x _ hx]
  rcases hz with h | h
  · subst h
    rw [List.append_nil, splitColon_no_colon y hy]
    exact ⟨[], rfl⟩
  · cases z with
    | nil => simp at h
    | cons c z =>
      simp only [List.head?_cons, Option.some.injEq] at h
      subst h
      rw [splitColon_append y z hy]
      exact ⟨_, rfl⟩

/-- A text is its part before the first colon, or such a part, a colon and the rest. -/
theorem first_colon (l : List Char) :
    ':' ∉ l ∨ ∃ x r, l = x ++ ':' :: r ∧ ':' ∉ x := by
  induction l with
  | nil => exact Or.inl (by simp)
  | cons c cs ih =>
    by_cases hc : c = ':'
    · subst hc
      exact Or.inr ⟨[], cs, rfl, by simp⟩
    · rcases ih with h | ⟨x, r, h1, h2⟩
      · left
        intro hm
        rcases List.mem_cons.1 hm with e | e
        · exact hc e.symm
        · exact h e
      · right
        refine ⟨c :: x, r, by simp [h1], ?_⟩
        intro hm
        rcases List.mem_cons.1 hm with e | e
        · exact hc e.symm
        · exact h2 e

/-- A token with a colon splits into at least two pieces, so that `splits[1]` exists. -/
theorem stringsSplit_of_colon (t : String) (h : ':' ∈ t.data) :
    ∃ ns nm more, stringsSplit t = ns :: nm :: more := by
  rcases first_colon t.data with h1 | ⟨x, r, h1, h2⟩
  · exact absurd h h1
  · have h3 : ∃ y more, splitColon r = y :: more := by
      cases r with
      | nil => exact ⟨[], [], rfl⟩
      | cons c cs =>
        by_cases hc : c = ':'
        · exact ⟨[], splitColon cs, by simp [splitColon, hc]⟩
        · cases hs : splitColon cs with
          | nil => exact ⟨[c], [], by simp [splitColon, hc, hs]⟩
          | cons a l => exact ⟨c :: a, l, by simp [splitColon, hc, hs]⟩
    obtain ⟨y, more, h4⟩ := h3
    refine ⟨String.mk x, String.mk y, more.map String.mk, ?_⟩
    simp [stringsSplit, h1, splitColon_append x r h2, h4]

/-- The pattern case when the fetch fails. -/
theorem resolve_fetch_error (env : Env) (st : St) (t : String) (e : String)
    (hc : st.cache = []) (hf : env.fetch st.getKind = .error e) :
    resolve env st t = .error ⟨.error e, st.trace ++ [.fetch st.getKind]⟩ := by
  simp only [resolve, hc, if_true, hf]

/-- The pattern case when the fetch succeeds, by the outcome of `search`. -/
theorem resolve_fetched (env : Env) (st : St) (t : String) (cache : List Resource)
    (ns nm : String) (more : List String)
    (hc : st.cache = []) (hf : env.fetch st.getKind = .ok cache)
    (hsplit : stringsSplit t = ns :: nm :: more) :
    resolve env st t =
      match search env.rx cache st.getKind ns nm with
      | .error e =>
        .error ⟨.error e, st.trace ++ [.fetch st.getKind, .search st.getKind ns nm]⟩
      | .crash c =>
        .error ⟨.crash c, st.trace ++ [.fetch st.getKind, .search st.getKind ns nm]⟩
      | .ok r =>
        .ok { st with
          args := st.args ++ resolvedTokens ns nm r, colonFound := true, cache := cache,
          trace := st.trace ++ [.fetch st.getKind, .search st.getKind ns nm] } := by
  simp only [resolve, hc, if_true, hf, hsplit]
  cases search env.rx cache st.getKind ns nm with
  | error e => simp
  | crash c => simp
  | ok r =>
    by_cases hnm : nm = ""
    · by_cases hns : ns = ""
      · subst hnm
        subst hns
        simp [resolvedTokens]
      · have hl : ns.length ≠ 0 := (length_ne_zero_iff _).2 hns
        subst hnm
        simp [resolvedTokens, hl, hns]
    · have hl : nm.length ≠ 0 := (length_ne_zero_iff _).2 hnm
      simp [resolvedTokens, hl, hnm]

/-- A pattern token met with the latch not set enters the pattern case. -/
theorem loop_pattern_case (env : Env) (st : St) (t : String) (S : List String)
    (ht : isPatternToken t = true) (hl : st.colonFound = false) :
    loop env st (t :: S) =
      match resolve env st t with
      | .error run => run
      | .ok st2 => loop env st2 S := by
  obtain ⟨h1, h2, h3⟩ := (isPatternToken_iff t).1 ht
  have hr : ¬ rgxKindCmd t = true := by simp [h3]
  rw [loop, if_neg (ne_ssh_of_colon t h1), if_neg h2, if_neg hr, if_pos ⟨hl, h1⟩]

/-! ## Runs with a pattern token -/

theorem buildArgs_cons (env : Env) (exe : String) (argv : List String) :
    buildArgs env (exe :: argv) = loop env St.init argv := rfl

theorem tailAfter_append (env : Env) (P S : List String) (old : List String) :
    tailAfter env S (tailAfter env P old) = tailAfter env (P ++ S) old := by
  by_cases h1 : "ssh" ∈ S
  · simp [tailAfter, h1]
  · by_cases h2 : "ssh" ∈ P
    · simp [tailAfter, h1, h2]
    · simp [tailAfter, h1, h2]

/-- The run up to the first pattern token `t`: the loop reaches `t` with the
latch not set, the cache nil, nothing recorded, and the kind `kindAfter "pods" P t`. -/
theorem buildArgs_front (env : Env) (exe : String) (P : List String) (t : String)
    (S : List String) (hP : ∀ a ∈ P, isPatternToken a = false) :
    buildArgs env (exe :: (P ++ t :: S)) =
      loop env { St.init with
        args := (P.map emitted).flatten,
        tailArgs := tailAfter env P [],
        getKind := kindAfter "pods" P t } (t :: S) := by
  rw [buildArgs_cons, loop_front env P t S St.init (fun a ha => Or.inl (hP a ha))]
  simp [St.init]

/-- The run when the fetch made for the first pattern token fails. -/
theorem buildArgs_fetch_failed (env : Env) (exe : String) (P : List String) (t : String)
    (S : List String) (e : String)
    (hP : ∀ a ∈ P, isPatternToken a = false) (ht : isPatternToken t = true)
    (hf : env.fetch (kindAfter "pods" P t) = .error e) :
    buildArgs env (exe :: (P ++ t :: S)) =
      ⟨.error e, [.fetch (kindAfter "pods" P t)]⟩ := by
  rw [buildArgs_front env exe P t S hP, loop_pattern_case env _ t S ht rfl,
    resolve_fetch_error env _ t e rfl hf]
  simp [St.init]

/-- The run when the fetch made for the first pattern token succeeds, by the outcome of `search`. -/
theorem buildArgs_fetched (env : Env) (exe : String) (P : List String) (t : String)
    (S : List String) (cache : List Resource) (ns nm : String) (more : List String)
    (hP : ∀ a ∈ P, isPatternToken a = false) (ht : isPatternToken t = true)
    (hf : env.fetch (kindAfter "pods" P t) = .ok cache)
    (hsplit : stringsSplit t = ns :: nm :: more) :
    buildArgs env (exe :: (P ++ t :: S)) =
      match search env.rx cache (kindAfter "pods" P t) ns nm with
      | .error e =>
        ⟨.error e, [.fetch (kindAfter "pods" P t), .search (kindAfter "pods" P t) ns nm]⟩
      | .crash c =>
        ⟨.crash c, [.fetch (kindAfter "pods" P t), .search (kindAfter "pods" P t) ns nm]⟩
      | .ok r =>
        ⟨.ok ((P.map emitted).flatten ++ resolvedTokens ns nm r ++ copied S ++
            tailAfter env (P ++ S) []),
          [.fetch (kindAfter "pods" P t), .search (kindAfter "pods" P t) ns nm]⟩ := by
  rw [buildArgs_front env exe P t S hP, loop_pattern_case env _ t S ht rfl]
  have hres := resolve_fetched env
    { St.init with
      args := (P.map emitted).flatten,
      tailArgs := tailAfter env P [],
      getKind := kindAfter "pods" P t } t cache ns nm more rfl hf hsplit
  rw [hres]
  cases hsearch : search env.rx cache (kindAfter "pods" P t) ns nm with
  | error e => simp [hsearch, St.init]
  | crash c => simp [hsearch, St.init]
  | ok r =>
    simp only [hsearch]
    rw [loop_copied_all env S _ (fun a _ => Or.inr rfl)]
    simp [St.init, tailAfter_append]

/-- The tokens before a token that is followed are emitted one by one. -/
theorem copied_append_cons (S1 : List String) (a : String) (S2 : List String) :
    copied (S1 ++ a :: S2) = (S1.map emitted).flatten ++ copied (a :: S2) := by
  induction S1 with
  | nil => simp
  | cons b S1 ih =>
    have hne : ¬ (S1 ++ a :: S2 = []) := by simp
    rw [List.cons_append, copied, ih]
    simp [hne]

/-- The kind after a front is decided by the last token of the front that `rgxKindCmd` matches. -/
theorem kindAfter_append (k : String) (P1 Q : List String) (t : String) :
    kindAfter k (P1 ++ Q) t = kindAfter (kindAfter k P1 (Q.head?.getD t)) Q t := by
  induction P1 generalizing k with
  | nil => simp [kindAfter]
  | cons a P1 ih =>
    have hh : (P1 ++ Q).head?.getD t = P1.head?.getD (Q.head?.getD t) := by
      cases P1 with
      | nil => rfl
      | cons b P1 => rfl
    show kindAfter (if rgxKindCmd a = true then (P1 ++ Q).head?.getD t else k) (P1 ++ Q) t =
      kindAfter (kindAfter (if rgxKindCmd a = true then P1.head?.getD (Q.head?.getD t) else k)
        P1 (Q.head?.getD t)) Q t
    rw [ih, hh]

theorem kindAfter_last_verb (k : String) (P1 : List String) (v : String) (P2 : List String)
    (t : String) (hv : rgxKindCmd v = true) (hP2 : ∀ a ∈ P2, rgxKindCmd a = false) :
    kindAfter k (P1 ++ v :: P2) t = P2.head?.getD t := by
  rw [kindAfter_append]
  simp only [kindAfter, hv, if_true]
  exact kindAfter_of_no_verb _ P2 t hP2

/-! ## The rewriter `buildArgs` (C11, C12, C14, C15) -/

/-- C11. Let `t` be the pattern token that is processed, the first of the
argument vector `P ++ t :: S`: whatever the tokens `P` emitted before it and
the tokens `S` after it, when the fetch callback returns an error
`buildArgs` returns that error, and when `search` returns an error
`buildArgs` returns that error; in both cases it returns no argument vector. -/
theorem buildArgs_all_or_nothing (env : Env) (exe : String) (P : List String) (t : String)
    (S : List String)
    (hP : ∀ a ∈ P, isPatternToken a = false) (ht : isPatternToken t = true) :
    (∀ e, env.fetch (kindAfter "pods" P t) = .error e →
      (buildArgs env (exe :: (P ++ t :: S))).result = .error e) ∧
    (∀ cache ns nm more e, env.fetch (kindAfter "pods" P t) = .ok cache →
      stringsSplit t = ns :: nm :: more →
      search env.rx cache (kindAfter "pods" P t) ns nm = .error e →
      (buildArgs env (exe :: (P ++ t :: S))).result = .error e) := by
  constructor
  · intro e hf
    rw [buildArgs_fetch_failed env exe P t S e hP ht hf]
  · intro cache ns nm more e hf hsplit hs
    rw [buildArgs_fetched env exe P t S cache ns nm more hP ht hf hsplit, hs]

/-- Witness of C11: a failing fetch, and a name pattern that matches nothing,
each with tokens before and after the pattern token. -/
theorem buildArgs_all_or_nothing_witness :
    (buildArgs failEnv ["kctl", "get", "pods", "dev:", "-o", "wide"]).result =
      .error "failed to get resource pods: exit status 1" ∧
    (buildArgs demoEnv ["kctl", "exec", ":zzz", "ps", "afx"]).result =
      .error "failed to find pods matching zzz" :=
  ⟨(buildArgs_all_or_nothing failEnv "kctl" ["get", "pods"] "dev:" ["-o", "wide"]
      (by decide) (by decide)).1 _ rfl,
   (buildArgs_all_or_nothing demoEnv "kctl" ["exec"] ":zzz" ["ps", "afx"]
      (by decide) (by decide)).2 demoCache "" "zzz" [] _ rfl (by decide) (by decide)⟩

/-- C12. When the first pattern token `t` of the argument vector
`P ++ t :: S` has been resolved (the fetch returned `cache`, `search`
returned `r`), no token of `S` is resolved: the run makes one fetch and one
call of `search`, and the tokens of `S` yield `copied S`, in which every
token `a` with a colon that is not the lone colon and that `rgxKindCmd` does
not match stands unchanged at its position, with nothing added. -/
theorem buildArgs_latch (env : Env) (exe : String) (P : List String) (t : String)
    (S : List String) (cache : List Resource) (ns nm : String) (more : List String)
    (r : Resource)
    (hP : ∀ a ∈ P, isPatternToken a = false) (ht : isPatternToken t = true)
    (hf : env.fetch (kindAfter "pods" P t) = .ok cache)
    (hsplit : stringsSplit t = ns :: nm :: more)
    (hs : search env.rx cache (kindAfter "pods" P t) ns nm = .ok r) :
    buildArgs env (exe :: (P ++ t :: S)) =
      ⟨.ok ((P.map emitted).flatten ++ resolvedTokens ns nm r ++ copied S ++
          tailAfter env (P ++ S) []),
        [.fetch (kindAfter "pods" P t), .search (kindAfter "pods" P t) ns nm]⟩ ∧
    (∀ S1 a S2, S = S1 ++ a :: S2 → ':' ∈ a.data → a ≠ ":" → rgxKindCmd a = false →
      copied S = (S1.map emitted).flatten ++ a :: copied S2) := by
  constructor
  · rw [buildArgs_fetched env exe P t S cache ns nm more hP ht hf hsplit, hs]
  · intro S1 a S2 hS hc hne hr
    have hssh : a ≠ "ssh" := ne_ssh_of_colon a hc
    rw [hS, copied_append_cons]
    simp [copied, emitted, hr, hssh, hne]

/-- Witness of C12: after `def:^api` is resolved, `x:y` and `a:b` are copied. -/
theorem buildArgs_latch_witness :
    buildArgs demoEnv ["kctl", "exec", "def:^api", "x:y", "ps", "a:b"] =
      ⟨.ok ["exec", "api-123", "--namespace", "default", "x:y", "ps", "a:b"],
        [.fetch "pods", .search "pods" "def" "^api"]⟩ ∧
    copied ["x:y", "ps", "a:b"] = ["x:y", "ps", "a:b"] :=
  ⟨(buildArgs_latch demoEnv "kctl" ["exec"] "def:^api" ["x:y", "ps", "a:b"] demoCache
      "def" "^api" [] ⟨"default", "api-123"⟩ (by decide) (by decide) rfl (by decide)
      (by decide)).1,
   (buildArgs_latch demoEnv "kctl" ["exec"] "def:^api" ["x:y", "ps", "a:b"] demoCache
      "def" "^api" [] ⟨"default", "api-123"⟩ (by decide) (by decide) rfl (by decide)
      (by decide)).2 ["x:y", "ps"] "a:b" [] rfl (by decide) (by decide) (by decide)⟩

/-- C14. Let `t` be the pattern token that is processed, the first of the
argument vector `P ++ t :: S`. The run first invokes the fetch callback with
a kind `k` and every later call is a call of `search` with the same `k`;
`k` is `pods` when `rgxKindCmd` matches no token of `P`, and otherwise is the
token that follows the last token of `P` it matches, which is `t` when that
token is the last of `P`. The token after a matched token is not consumed:
the next iteration starts at it. -/
theorem buildArgs_kind (env : Env) (exe : String) (P : List String) (t : String)
    (S : List String)
    (hP : ∀ a ∈ P, isPatternToken a = false) (ht : isPatternToken t = true) :
    (∃ k tr, (buildArgs env (exe :: (P ++ t :: S))).trace = .fetch k :: tr ∧
      (∀ e ∈ tr, ∃ ns nm, e = .search k ns nm) ∧
      ((∀ a ∈ P, rgxKindCmd a = false) → k = "pods") ∧
      (∀ P1 v P2, P = P1 ++ v :: P2 → rgxKindCmd v = true →
        (∀ a ∈ P2, rgxKindCmd a = false) → k = P2.head?.getD t)) ∧
    (∀ (st : St) (a b : String) (rest : List String), rgxKindCmd a = true →
      loop env st (a :: b :: rest) =
        loop env { st with args := st.args ++ [a], getKind := b } (b :: rest)) := by
  constructor
  · refine ⟨kindAfter "pods" P t, ?_⟩
    have hk1 : (∀ a ∈ P, rgxKindCmd a = false) → kindAfter "pods" P t = "pods" :=
      kindAfter_of_no_verb "pods" P t
    have hk2 : ∀ P1 v P2, P = P1 ++ v :: P2 → rgxKindCmd v = true →
        (∀ a ∈ P2, rgxKindCmd a = false) → kindAfter "pods" P t = P2.head?.getD t := by
      intro P1 v P2 hPe hv hP2
      rw [hPe]
      exact kindAfter_last_verb "pods" P1 v P2 t hv hP2
    cases hf : env.fetch (kindAfter "pods" P t) with
    | error e =>
      refine ⟨[], ?_, ?_, hk1, hk2⟩
      · rw [buildArgs_fetch_failed env exe P t S e hP ht hf]
      · intro e he
        cases he
    | ok cache =>
      obtain ⟨ns, nm, more, hsplit⟩ :=
        stringsSplit_of_colon t ((isPatternToken_iff t).1 ht).1
      refine ⟨[.search (kindAfter "pods" P t) ns nm], ?_, ?_, hk1, hk2⟩
      · rw [buildArgs_fetched env exe P t S cache ns nm more hP ht hf hsplit]
        cases search env.rx cache (kindAfter "pods" P t) ns nm with
        | error e => rfl
        | crash c => rfl
        | ok r => rfl
      · intro e he
        rw [List.mem_singleton] at he
        exact ⟨ns, nm, he⟩
  · intro st a b rest ha
    have hssh : a ≠ "ssh" := by
      intro e
      rw [e, rgxKindCmd_ssh] at ha
      cases ha
    have hcolon : a ≠ ":" := by
      intro e
      rw [e, rgxKindCmd_colon] at ha
      cases ha
    rw [loop, if_neg hssh, if_neg hcolon, if_pos ha]
    rfl

/-- Witness of C14: `describe pod f:^api$` fetches the kind `pod`, `exec f:^api ps afx` the kind `pods`. -/
theorem buildArgs_kind_witness :
    (∃ tr, (buildArgs demoEnv ["kctl", "describe", "pod", "f:^api$"]).trace =
      .fetch "pod" :: tr) ∧
    (∃ tr, (buildArgs demoEnv ["kctl", "exec", "f:^api", "ps", "afx"]).trace =
      .fetch "pods" :: tr) := by
  obtain ⟨k1, tr1, h1, _, _, h1k⟩ :=
    (buildArgs_kind demoEnv "kctl" ["describe", "pod"] "f:^api$" [] (by decide) (by decide)).1
  obtain ⟨k2, tr2, h2, _, h2k, _⟩ :=
    (buildArgs_kind demoEnv "kctl" ["exec"] "f:^api" ["ps", "afx"] (by decide) (by decide)).1
  have e1 : k1 = "pod" := h1k [] "describe" ["pod"] rfl (by decide) (by decide)
  have e2 : k2 = "pods" := h2k (by decide)
  subst e1
  subst e2
  exact ⟨⟨tr1, h1⟩, ⟨tr2, h2⟩⟩

/-- What `search` is called with for the pattern token that is processed:
the text before the first colon, and the text between the first colon and
the second, or the end of the token when it has one colon only. -/
theorem buildArgs_split (env : Env) (exe : String) (P : List String) (t : String)
    (S : List String) (x y : String) (z : List Char) (cache : List Resource)
    (hP : ∀ a ∈ P, isPatternToken a = false) (ht : isPatternToken t = true)
    (hdata : t.data = x.data ++ ':' :: (y.data ++ z))
    (hx : ':' ∉ x.data) (hy : ':' ∉ y.data) (hz : z = [] ∨ z.head? = some ':')
    (hf : env.fetch (kindAfter "pods" P t) = .ok cache) :
    (buildArgs env (exe :: (P ++ t :: S))).trace =
      [.fetch (kindAfter "pods" P t), .search (kindAfter "pods" P t) x y] := by
  obtain ⟨more, hmore⟩ := splitColon_two x.data y.data z hx hy hz
  have hsplit : stringsSplit t = x :: y :: more.map String.mk := by
    simp [stringsSplit, hdata, hmore]
  rw [buildArgs_fetched env exe P t S cache x y _ hP ht hf hsplit]
  cases search env.rx cache (kindAfter "pods" P t) x y with
  | error e => rfl
  | crash c => rfl
  | ok r => rfl

/-- C15, evaluated at tokens with two colons. For `a:b:c`, `search` is called
with the name pattern `b`, not `b:c`: `strings.Split` cuts at every colon and
the pieces after the second are not used. For `f:^(?:api|web)`, whose name
pattern uses a group of the documented expression syntax, `search` is called
with `^(?`, which does not compile. -/
theorem buildArgs_split_ignores_rest :
    (buildArgs demoEnv ["kctl", "a:b:c"]).trace = [.fetch "pods", .search "pods" "a" "b"] ∧
    Event.search "pods" "a" "b:c" ∉ (buildArgs demoEnv ["kctl", "a:b:c"]).trace ∧
    stringsSplit "a:b:c" = ["a", "b", "c"] ∧
    buildArgs demoEnv ["kctl", "describe", "pod", "f:^(?:api|web)"] =
      ⟨.crash (.mustCompile "^(?"), [.fetch "pod", .search "pod" "f" "^(?"]⟩ := by
  decide

/-! ## The place of the tail (C9) -/

/-- C16, evaluated at vectors whose last token is one of the four verbs and
has no colon: the verb case is taken, no token follows, and the token is not
emitted; `get` alone gives the empty vector. -/
theorem buildArgs_drops_last_verb (env : Env) :
    (∀ a ∈ ["get", "Describe"], isKindVerb a = true ∧ ':' ∉ a.data) ∧
    buildArgs env ["kctl", "get"] = ⟨.ok [], []⟩ ∧
    buildArgs env ["kctl", "rollout", "status", "Describe"] =
      ⟨.ok ["rollout", "status"], []⟩ := by
  refine ⟨by decide, ?_, ?_⟩
  · rfl
  · rfl

/-- C17, evaluated at the token `::`, which is not the lone colon and splits
into empty pieces: `search` is called with both patterns empty; on an empty
fetched list the expression `rs[0]` stops the program, and `buildArgs` ends
with neither an argument vector nor an error. -/
theorem buildArgs_double_colon (rx : Regexp) (term : String)
    (caps : Except String (Int × Int)) :
    buildArgs { fetch := fun _ => .ok [], rx := rx, term := term, termCaps := caps }
        ["kctl", "::"] =
      ⟨.crash .indexOutOfRange, [.fetch "pods", .search "pods" "" ""]⟩ ∧
    buildArgs { fetch := fun _ => .ok demoCache, rx := rx, term := term, termCaps := caps }
        ["kctl", "exec", "::"] =
      ⟨.ok ["exec"], [.fetch "pods", .search "pods" "" ""]⟩ := by
  constructor
  · rfl
  · rfl

/-- C18, evaluated at the tokens `default:target` and `prod:^widget`, which
contain a colon and are neither the lone colon, nor `ssh`, nor one of the
four verbs: `rgxKindCmd` matches them (`target` and `widget` contain `get`),
the verb case is taken, the fetch callback is not invoked and the token is
copied, or dropped when it is the last one. -/
theorem buildArgs_verb_inside_pattern (env : Env) :
    (∀ a ∈ ["default:target", "prod:^widget"],
      ':' ∈ a.data ∧ a ≠ ":" ∧ a ≠ "ssh" ∧ isKindVerb a = false ∧ rgxKindCmd a = true) ∧
    buildArgs env ["kctl", "exec", "default:target", "ps"] =
      ⟨.ok ["exec", "default:target", "ps"], []⟩ ∧
    buildArgs env ["kctl", "logs", "prod:^widget"] = ⟨.ok ["logs"], []⟩ := by
  refine ⟨by decide, ?_, ?_⟩
  · rfl
  · rfl

/-- C20. When no token of the argument vector contains a colon or is `ssh`,
and `rgxKindCmd` does not match the last token, `buildArgs` returns the
vector unchanged, tokens matched by `rgxKindCmd` at other positions
included, with no error and without invoking the fetch callback or `search`. -/
theorem buildArgs_identity (env : Env) (exe : String) (argv : List String)
    (hargv : ∀ a ∈ argv, ':' ∉ a.data ∧ a ≠ "ssh")
    (hlast : ∀ a, argv.getLast? = some a → rgxKindCmd a = false) :
    buildArgs env (exe :: argv) = ⟨.ok argv, []⟩ := by
  rw [buildArgs_cons, loop_simple_all env argv St.init
    (fun a ha => ⟨(hargv a ha).2, Or.inr (hargv a ha).1⟩) hlast,
    map_mark_of_no_colon argv (fun a ha => (hargv a ha).1)]
  simp [St.init]

/-- Witness of C20: `get pods -o wide`, with the verb `get` in first position. -/
theorem buildArgs_identity_witness :
    buildArgs demoEnv ["kctl", "get", "pods", "-o", "wide"] =
      ⟨.ok ["get", "pods", "-o", "wide"], []⟩ :=
  buildArgs_identity demoEnv "kctl" ["get", "pods", "-o", "wide"] (by decide) (by decide)

/-! ## The lister `buildCache` (C13) -/

theorem bytesSplit_no_sep (sep : Char) (l : List Char) (h : sep ∉ l) :
    bytesSplit sep l = [l] := by
  induction l with
  | nil => rfl
  | cons c cs ih =>
    have hc : c ≠ sep := fun e => h (by simp [e])
    have hcs : sep ∉ cs := fun e => h (List.mem_cons_of_mem _ e)
    simp [bytesSplit, hc, ih hcs]

theorem bytesSplit_append (sep : Char) (l rest : List Char) (h : sep ∉ l) :
    bytesSplit sep (l ++ sep :: rest) = l :: bytesSplit sep rest := by
  induction l with
  | nil => simp [bytesSplit]
  | cons c cs ih =>
    have hc : c ≠ sep := fun e => h (by simp [e])
    have hcs : sep ∉ cs := fun e => h (List.mem_cons_of_mem _ e)
    simp [bytesSplit, hc, ih hcs]

theorem fieldsGo_word (w : List Char) (cur rest : List Char)
    (hw : ∀ c ∈ w, isSpace c = false) :
    fieldsGo cur (w ++ rest) = fieldsGo (w.reverse ++ cur) rest := by
  induction w generalizing cur with
  | nil => simp
  | cons c cs ih =>
    have hc : isSpace c = false := hw c (List.mem_cons_self _ _)
    rw [List.cons_append, fieldsGo]
    simp only [hc, Bool.false_eq_true, if_false]
    rw [ih (c :: cur) (fun x hx => hw x (List.mem_cons_of_mem _ hx))]
    simp

theorem fieldsGo_blank (sp rest : List Char) (hsp : ∀ c ∈ sp, isSpace c = true) :
    fieldsGo [] (sp ++ rest) = fieldsGo [] rest := by
  induction sp with
  | nil => simp
  | cons c cs ih =>
    have hc : isSpace c = true := hsp c (List.mem_cons_self _ _)
    rw [List.cons_append, fieldsGo]
    simp only [hc, if_true]
    exact ih (fun x hx => hsp x (List.mem_cons_of_mem _ hx))

theorem fieldsGo_close (cur : List Char) (c : Char) (rest : List Char)
    (hcur : cur ≠ []) (hc : isSpace c = true) :
    fieldsGo cur (c :: rest) = cur.reverse :: fieldsGo [] rest := by
  rw [fieldsGo]
  simp [hc, hcur]

/-- The fields of a line that starts with two words: the two words, then the fields of the rest. -/
theorem bytesFields_two (sp0 w1 sp1 w2 rest : List Char)
    (h0 : ∀ c ∈ sp0, isSpace c = true)
    (h1 : w1 ≠ []) (h1w : ∀ c ∈ w1, isSpace c = false)
    (h2 : sp1 ≠ []) (h2s : ∀ c ∈ sp1, isSpace c = true)
    (h3 : w2 ≠ []) (h3w : ∀ c ∈ w2, isSpace c = false)
    (h4 : rest = [] ∨ ∃ c r, rest = c :: r ∧ isSpace c = true) :
    bytesFields (sp0 ++ w1 ++ sp1 ++ w2 ++ rest) = w1 :: w2 :: bytesFields rest := by
  have hr1 : w1.reverse ≠ [] := by simpa using h1
  have hr2 : w2.reverse ≠ [] := by simpa using h3
  unfold bytesFields
  simp only [List.append_assoc]
  rw [fieldsGo_blank sp0 _ h0, fieldsGo_word w1 [] _ h1w, List.append_nil]
  cases sp1 with
  | nil => exact absurd rfl h2
  | cons s sp1 =>
    rw [List.cons_append, fieldsGo_close _ s _ hr1 (h2s s (List.mem_cons_self _ _)),
      List.reverse_reverse,
      fieldsGo_blank sp1 _ (fun x hx => h2s x (List.mem_cons_of_mem _ hx)),
      fieldsGo_word w2 [] _ h3w, List.append_nil]
    rcases h4 with h | ⟨c, r, h, hc⟩
    · subst h
      simp [fieldsGo, h3]
    · subst h
      rw [fieldsGo_close _ c r hr2 hc, List.reverse_reverse]
      have : fieldsGo [] (c :: r) = fieldsGo [] r := by
        rw [fieldsGo]
        simp [hc]
      rw [this]

/-- The loop of `buildCache` on lines each of which is empty or has two fields. -/
theorem buildCacheLines_eq (lines : List (List Char)) (rs : List Resource)
    (h : ∀ l ∈ lines, l ≠ [] → 2 ≤ (bytesFields l).length) :
    buildCacheLines lines rs =
      .ok (rs ++ (lines.filter (fun l => decide (l ≠ []))).map lineResource) := by
  induction lines generalizing rs with
  | nil => simp [buildCacheLines]
  | cons l lines ih =>
    have ih2 := fun rs => ih rs (fun x hx => h x (List.mem_cons_of_mem _ hx))
    by_cases hl : l = []
    · subst hl
      rw [buildCacheLines]
      simp [ih2]
    · have hlen : ¬ l.length = 0 := by simpa using hl
      have h2 := h l (List.mem_cons_self _ _) hl
      rw [buildCacheLines, if_neg hlen]
      rcases hf : bytesFields l with _ | ⟨f0, _ | ⟨f1, fs⟩⟩
      · rw [hf] at h2
        simp at h2
      · rw [hf] at h2
        simp at h2
      · simp only [ih2]
        simp [hl, lineResource, hf]

/-- C13. When every non-empty line of the client's output has at least two
fields, `buildCache` returns, with no error, one resource for each non-empty
line, in the order of the lines, empty lines giving nothing; the resource of
a line has its first field as namespace and its second as name, whatever
follows the second field. The lines are the pieces between line feeds, the
fields the maximal runs without white space. -/
theorem buildCache_parses (b res : String)
    (h : ∀ l ∈ bytesSplit '\n' b.data, l ≠ [] → 2 ≤ (bytesFields l).length) :
    buildCache (.ok b) res =
      .ok (((bytesSplit '\n' b.data).filter (fun l => decide (l ≠ []))).map lineResource) ∧
    (∀ sp0 w1 sp1 w2 rest : List Char,
      (∀ c ∈ sp0, isSpace c = true) →
      w1 ≠ [] → (∀ c ∈ w1, isSpace c = false) →
      sp1 ≠ [] → (∀ c ∈ sp1, isSpace c = true) →
      w2 ≠ [] → (∀ c ∈ w2, isSpace c = false) →
      (rest = [] ∨ ∃ c r, rest = c :: r ∧ isSpace c = true) →
      lineResource (sp0 ++ w1 ++ sp1 ++ w2 ++ rest) = ⟨String.mk w1, String.mk w2⟩) ∧
    (∀ l rest : List Char, '\n' ∉ l →
      bytesSplit '\n' (l ++ '\n' :: rest) = l :: bytesSplit '\n' rest ∧
      bytesSplit '\n' l = [l]) := by
  refine ⟨?_, ?_, ?_⟩
  · simp only [buildCache]
    rw [buildCacheLines_eq _ [] h]
    simp
  · intro sp0 w1 sp1 w2 rest h0 h1 h1w h2 h2s h3 h3w h4
    unfold lineResource
    rw [bytesFields_two sp0 w1 sp1 w2 rest h0 h1 h1w h2 h2s h3 h3w h4]
    rfl
  · intro l rest hl
    exact ⟨bytesSplit_append '\n' l rest hl, bytesSplit_no_sep '\n' l hl⟩

/-- Witness of C13: three lines, the second empty, the first with four
fields; a final line feed leaves an empty last piece. -/
theorem buildCache_parses_witness :
    buildCache (.ok "default  api-123  1/1 Running\n\nkube-system\tdns-1\n") "pods" =
      .ok [⟨"default", "api-123"⟩, ⟨"kube-system", "dns-1"⟩] :=
  (buildCache_parses "default  api-123  1/1 Running\n\nkube-system\tdns-1\n" "pods"
    (by decide)).1

end Kctl
